import Mathlib

/-!
Verification of the rdt core: a shallow embedding of `channel.py` (checksum,
unreliable link, channel pipeline) and `tcp_like.py` (the TCP-like endpoint),
with theorems checking the repository specification against the code.

Modelling conventions:
* Python dict packets become a structure with optional fields; the dict key
  `type` is spelled `ptype` (Lean keyword), everything else keeps its name.
* Python `float` quantities (time, SRTT, RTTVAR, cwnd, probabilities) are
  modelled as exact rationals; Python `int` as `Int`/`Nat`.
* Python `int(x)` (truncation toward zero) is `pyInt`.
* `random.random() < p` draws are passed in explicitly as `Bool` arguments,
  and the random corruption index as a `Nat` argument.
* Mutable endpoint state becomes explicit state passing: each handler takes
  the pre-state (plus `now`, the value of `time.time()`) and returns the
  post-state together with the packet it handed to `_channel_send`, if any.
  The endpoint lock makes each handler atomic, so an execution of the system
  is an interleaving of whole handler runs.
-/

/-- Wire packet: the Python dict `{"type", "seq", "ack", "payload", "checksum",
"corrupted"}` with optional fields.  `ptype` is the dict key `"type"`. -/
structure Packet where
  ptype : String
  seq : Option Nat
  ack : Option Int
  payload : Option (List Nat)
  checksum : Option Int
  corrupted : Bool
deriving DecidableEq, Repr

/-- Convenience constructor for the DATA packets `send_data` builds. -/
def mkData (s : Nat) (pl : List Nat) : Packet :=
  { ptype := "DATA", seq := some s, ack := none, payload := some pl,
    checksum := none, corrupted := false }

/-- XOR fold of the character codes of a string (the `for char in pkt["type"]`
loop of `calculate_checksum`; the empty string contributes nothing, exactly as
the falsy-string guard does). -/
def strXor (t : String) : Nat :=
  t.data.foldl (fun a c => a ^^^ c.toNat) 0

/-- XOR fold of payload bytes into an integer accumulator. -/
def payloadXor (a : Int) (pl : List Nat) : Int :=
  pl.foldl (fun x b => Int.xor x (b : Int)) a

/-- The function `calculate_checksum` of channel.py: XOR the type characters,
the seq value (if present), the ack value (if present) and every payload byte,
then mask to 16 bits.  Python integers are `Int`, so the ack of an ACK packet
(which can be `-1`) is folded with two's-complement XOR, as Python does. -/
def calculate_checksum (p : Packet) : Int :=
  let a0 : Int := (strXor p.ptype : Int)
  let a1 : Int := match p.seq with
    | some s => Int.xor a0 (s : Int)
    | none => a0
  let a2 : Int := match p.ack with
    | some k => Int.xor a1 k
    | none => a1
  let a3 : Int := match p.payload with
    | some pl => payloadXor a2 pl
    | none => a2
  Int.land a3 65535

/-- The function `verify_checksum` of channel.py: a packet without a checksum
field is treated as valid; otherwise the stored field must equal the
recomputation. -/
def verify_checksum (p : Packet) : Bool :=
  match p.checksum with
  | none => true
  | some c => c == calculate_checksum p

/-- The function `add_checksum` of channel.py, as the resulting dict state
(Python mutates the dict in place and returns it). -/
def add_checksum (p : Packet) : Packet :=
  { p with checksum := some (calculate_checksum p) }

/-- State of `UnreliableLink`: configuration knobs, the single-packet reorder
buffer, and the four statistics counters. -/
structure UnreliableLink where
  loss : ℚ
  delay_mean_ms : ℚ
  delay_jitter_ms : ℚ
  reorder_prob : ℚ
  corruption_prob : ℚ
  reorder_buffer : Option Packet
  packets_sent : ℕ
  packets_lost : ℕ
  packets_corrupted : ℕ
  packets_reordered : ℕ
deriving DecidableEq, Repr

/-- The method `UnreliableLink.maybe_corrupt`.  `draw` is the outcome of
`random.random() < self.corruption_prob`; `idx` is the result of
`random.randint(0, len(payload) - 1)`.  With a truthy (present, non-empty)
payload and a successful draw, one payload byte `b` becomes `(b + 1) % 256`
and the packet is marked corrupted. -/
def maybe_corrupt (draw : Bool) (idx : ℕ) (l : UnreliableLink) (p : Packet) :
    UnreliableLink × Packet :=
  match p.payload with
  | some pl =>
    if draw ∧ pl ≠ [] then
      let b := pl.getD idx 0
      ({ l with packets_corrupted := l.packets_corrupted + 1 },
       { p with payload := some (pl.set idx ((b + 1) % 256)), corrupted := true })
    else (l, p)
  | none => (l, p)

/-- The method `UnreliableLink.maybe_reorder`.  `draw` is the outcome of the
single `random.random() < self.reorder_prob` comparison the taken branch
evaluates.  Returns the new link state and the packet released now (`none`
means this send produces no immediate wire packet). -/
def maybe_reorder (draw : Bool) (l : UnreliableLink) (p : Packet) :
    UnreliableLink × Option Packet :=
  if l.reorder_prob ≤ 0 then (l, some p)
  else
    match l.reorder_buffer with
    | none =>
      if draw then
        ({ l with reorder_buffer := some p,
                  packets_reordered := l.packets_reordered + 1 }, none)
      else (l, some p)
    | some q =>
      ({ l with reorder_buffer := if draw then some p else none }, some q)

/-- A held packet as a (zero- or one-element) list, for counting. -/
def optList (o : Option Packet) : List Packet :=
  match o with
  | none => []
  | some p => [p]

/-- Run a sequence of `maybe_reorder` calls on one link.  Each call is a pair
(draw, packet).  Returns the final link state, the list of per-call results,
and the list of packets the link silently discarded (a packet is discarded
exactly when it arrives at an occupied buffer and the draw fails, since the
code then returns the held packet and empties the buffer without keeping the
new one). -/
def runReorder : UnreliableLink → List (Bool × Packet) →
    UnreliableLink × List (Option Packet) × List Packet
  | l, [] => (l, [], [])
  | l, dp :: rest =>
    let step := maybe_reorder dp.1 l dp.2
    let lost0 : List Packet :=
      if 0 < l.reorder_prob ∧ l.reorder_buffer ≠ none ∧ dp.1 = false
      then [dp.2] else []
    let r := runReorder step.1 rest
    (r.1, step.2 :: r.2.1, lost0 ++ r.2.2)

/-- Python `int(x)`: truncation toward zero. -/
def pyInt (q : ℚ) : ℤ :=
  if q < 0 then ⌈q⌉ else ⌊q⌋

/-- State of `TCPishEndpoint` (tcp_like.py).  The Python dicts `sent` and
`sent_ts` become optional-valued maps; the `threading.Timer` handle becomes
the flag `timerArmed`; write-only logging state (`log_events`, `start_time`)
is omitted. -/
structure TCPishEndpoint where
  nextseq : ℕ
  base : ℕ
  window : ℕ
  sent : ℕ → Option Packet
  sent_ts : ℕ → Option ℚ
  app_rx : List (List ℕ)
  alpha : ℚ
  beta : ℚ
  k : ℚ
  srtt : Option ℚ
  rttvar : Option ℚ
  rto_ms : ℤ
  timerArmed : Bool
  last_acked : ℤ
  dup_count : ℕ
  enable_congestion_control : Bool
  ssthresh : ℤ
  cwnd : ℚ
  ai_factor : ℚ
  md_factor : ℚ
  packets_sent : ℕ
  packets_received : ℕ
  retransmissions : ℕ
  timeouts : ℕ
  fast_retransmits : ℕ
  rtt_samples : List ℚ

/-- Point update of a finite map modelled as a function. -/
def upd {α : Type} (f : ℕ → Option α) (i : ℕ) (v : α) : ℕ → Option α :=
  fun j => if j = i then some v else f j

/-- The constructor `TCPishEndpoint.__init__` with its configurable
parameters (name and logging omitted). -/
def initEndpoint (init_rto_ms : ℤ) (alpha beta k : ℚ) (ecc : Bool)
    (ssthresh_init : ℤ) (cwnd_init : ℚ) (ai md : ℚ) : TCPishEndpoint :=
  { nextseq := 0, base := 0, window := 8,
    sent := fun _ => none, sent_ts := fun _ => none, app_rx := [],
    alpha := alpha, beta := beta, k := k, srtt := none, rttvar := none,
    rto_ms := init_rto_ms, timerArmed := false, last_acked := -1, dup_count := 0,
    enable_congestion_control := ecc, ssthresh := ssthresh_init, cwnd := cwnd_init,
    ai_factor := ai, md_factor := md,
    packets_sent := 0, packets_received := 0, retransmissions := 0,
    timeouts := 0, fast_retransmits := 0, rtt_samples := [] }

/-- The endpoint constructed with all default arguments
(init_rto_ms=200, alpha=0.125, beta=0.25, k=4, congestion control on,
ssthresh_init=65535, cwnd_init=1, ai_factor=1, md_factor=0.5). -/
def defaultEndpoint : TCPishEndpoint :=
  initEndpoint 200 (1/8) (1/4) 4 true 65535 1 1 (1/2)

/-- Result of `send_data`: the Python return value, the endpoint post-state,
and the packet handed to `_channel_send` (if any). -/
structure SendResult where
  ok : Bool
  st : TCPishEndpoint
  out : Option Packet

/-- Result of `on_receive` / `_timeout`: post-state and the packet handed to
`_channel_send` (if any). -/
structure StepResult where
  st : TCPishEndpoint
  out : Option Packet

/-- The method `TCPishEndpoint.send_data`.  `now` is `time.time()`.  The
effective window is the (fractional!) `cwnd` itself when congestion control
is enabled, else the static `window`; the comparison
`nextseq < base + effective_window` is done in Python floats, here exactly
in the rationals. -/
def send_data (s : TCPishEndpoint) (now : ℚ) (data : List ℕ) : SendResult :=
  let effective_window : ℚ :=
    if s.enable_congestion_control then s.cwnd else (s.window : ℚ)
  if (s.nextseq : ℚ) < (s.base : ℚ) + effective_window then
    let seq := s.nextseq
    let pkt := mkData seq data
    let s1 := { s with sent := upd s.sent seq pkt, sent_ts := upd s.sent_ts seq now,
                       packets_sent := s.packets_sent + 1 }
    let s2 := if s1.base = seq then { s1 with timerArmed := true } else s1
    { ok := true, st := { s2 with nextseq := seq + 1 }, out := some pkt }
  else
    { ok := false, st := s, out := none }

/-- The timer callback `TCPishEndpoint._timeout`.  Always counts the timeout;
when `base` is in `sent` it resends that packet, refreshes its timestamp,
applies the multiplicative decrease (only with congestion control enabled),
doubles the RTO capped at 60000 ms, and re-arms the timer. -/
def timeout_fire (s : TCPishEndpoint) (now : ℚ) : StepResult :=
  let s0 := { s with timeouts := s.timeouts + 1 }
  match s0.sent s0.base with
  | some pkt =>
    let s1 := { s0 with sent_ts := upd s0.sent_ts s0.base now,
                        retransmissions := s0.retransmissions + 1 }
    let s2 :=
      if s1.enable_congestion_control then
        { s1 with ssthresh := max 2 (pyInt (s1.cwnd * s1.md_factor)), cwnd := 1 }
      else s1
    let s3 := { s2 with rto_ms := min 60000 (2 * s2.rto_ms), timerArmed := true }
    { st := s3, out := some pkt }
  | none => { st := s0, out := none }

/-- The ACK packet the receiver role emits: `{"type": "ACK", "ack": last_acked}`. -/
def mkAck (a : ℤ) : Packet :=
  { ptype := "ACK", seq := none, ack := some a, payload := none, checksum := none,
    corrupted := false }

/-- The DATA branch of `TCPishEndpoint.on_receive`: in-order delivery with
cumulative ACK, congestion increase on successful in-order receipt, and an
unconditional cumulative ACK reply. -/
def on_receive_data (s : TCPishEndpoint) (p : Packet) : StepResult :=
  let seq := p.seq.getD 0
  let pl := p.payload.getD []
  let s1 :=
    if (seq : ℤ) = s.last_acked + 1 then
      let sA := { s with app_rx := s.app_rx ++ [pl], last_acked := s.last_acked + 1,
                         packets_received := s.packets_received + 1 }
      if sA.enable_congestion_control ∧ sA.cwnd < (sA.ssthresh : ℚ) then
        { sA with cwnd := sA.cwnd + 1 }
      else if sA.enable_congestion_control then
        { sA with cwnd := sA.cwnd + sA.ai_factor / sA.cwnd }
      else sA
    else s
  { st := s1, out := some (mkAck s1.last_acked) }

/-- The ACK branch of `TCPishEndpoint.on_receive`, new-ACK case (`ack >= base`):
optional RTT sample and estimator update, window slide, timer cancel/re-arm,
duplicate-counter reset. -/
def on_receive_newack (s : TCPishEndpoint) (now : ℚ) (a : ℤ) : StepResult :=
  let s1 :=
    match s.sent_ts a.toNat with
    | some ts =>
      let sample := max 0 (now - ts)
      let sR := { s with rtt_samples := s.rtt_samples ++ [sample * 1000] }
      let sR2 :=
        match sR.srtt with
        | none => { sR with srtt := some sample, rttvar := some (sample / 2) }
        | some s0 =>
          let v0 := sR.rttvar.getD 0
          { sR with rttvar := some ((1 - sR.beta) * v0 + sR.beta * |s0 - sample|),
                    srtt := some ((1 - sR.alpha) * s0 + sR.alpha * sample) }
      let rt := pyInt (1000 * (sR2.srtt.getD 0 + sR2.k * sR2.rttvar.getD 0))
      { sR2 with rto_ms := max 100 (min rt 60000) }
    | none => s
  let s2 := { s1 with base := (a + 1).toNat }
  let s3 := if s2.base = s2.nextseq then { s2 with timerArmed := false }
            else { s2 with timerArmed := true }
  { st := { s3 with dup_count := 0 }, out := none }

/-- The ACK branch of `TCPishEndpoint.on_receive`, old-ACK case (`ack < base`):
count a duplicate only when the value equals `last_acked`; at three or more
duplicates with `base` in `sent`, fast-retransmit. -/
def on_receive_oldack (s : TCPishEndpoint) (now : ℚ) (a : ℤ) : StepResult :=
  if a = s.last_acked then
    let sD := { s with dup_count := s.dup_count + 1 }
    if 3 ≤ sD.dup_count then
      match sD.sent sD.base with
      | some pkt =>
        let sF := { sD with fast_retransmits := sD.fast_retransmits + 1,
                            sent_ts := upd sD.sent_ts sD.base now,
                            retransmissions := sD.retransmissions + 1 }
        let sF2 :=
          if sF.enable_congestion_control then
            let st2 := max 2 (pyInt (sF.cwnd * sF.md_factor))
            { sF with ssthresh := st2, cwnd := (st2 : ℚ) }
          else sF
        { st := { sF2 with timerArmed := true }, out := some pkt }
      | none => { st := sD, out := none }
    else { st := sD, out := none }
  else { st := s, out := none }

/-- The method `TCPishEndpoint.on_receive` (the direction tag does not enter
the handler's logic and is dropped). -/
def on_receive (s : TCPishEndpoint) (now : ℚ) (p : Packet) : StepResult :=
  if p.ptype = "DATA" then on_receive_data s p
  else if p.ptype = "ACK" then
    let a := p.ack.getD 0
    if (s.base : ℤ) ≤ a then on_receive_newack s now a
    else on_receive_oldack s now a
  else { st := s, out := none }

/-- The method `TCPishEndpoint.recv_app_data`: pop the oldest delivered
payload, or signal empty. -/
def recv_app_data (s : TCPishEndpoint) : TCPishEndpoint × Option (List ℕ) :=
  match s.app_rx with
  | [] => (s, none)
  | x :: rest => ({ s with app_rx := rest }, some x)

/-- A fresh `UnreliableLink` with the given configuration. -/
def initLink (loss dm dj rp cp : ℚ) : UnreliableLink :=
  { loss := loss, delay_mean_ms := dm, delay_jitter_ms := dj, reorder_prob := rp,
    corruption_prob := cp, reorder_buffer := none, packets_sent := 0,
    packets_lost := 0, packets_corrupted := 0, packets_reordered := 0 }

/-- Result of one `UnreliableChannel._send` call on one link.  `obj` is the
final state of the packet dict passed in: Python mutates that dict in place
(`add_checksum` and `maybe_corrupt` both write into it), and for a DATA
packet this dict is the very object stored in the sender's `sent` map.
`delivered` is the packet handed to the peer's `on_receive` once the
scheduled delivery runs and passes `verify_checksum` (`none` if the packet
was dropped, held in the reorder buffer, or failed verification). -/
structure WireResult where
  link : UnreliableLink
  obj : Packet
  delivered : Option Packet

/-- The method `UnreliableChannel._send` for a single packet on one link,
with the delayed `deliver` closure already run: count the send, stamp the
checksum, maybe drop, maybe corrupt, maybe reorder, and verify the checksum
of whatever packet the reorder stage released. -/
def channel_send (dropDraw corruptDraw reorderDraw : Bool) (idx : ℕ)
    (l : UnreliableLink) (p : Packet) : WireResult :=
  let l0 := { l with packets_sent := l.packets_sent + 1 }
  let p1 := add_checksum p
  if dropDraw then
    { link := { l0 with packets_lost := l0.packets_lost + 1 }, obj := p1,
      delivered := none }
  else
    let c := maybe_corrupt corruptDraw idx l0 p1
    let r := maybe_reorder reorderDraw c.1 c.2
    match r.2 with
    | none => { link := r.1, obj := c.2, delivered := none }
    | some q =>
      if verify_checksum q then { link := r.1, obj := c.2, delivered := some q }
      else { link := r.1, obj := c.2, delivered := none }

/-- Global state of two endpoints wired by the channel.  `flightAB` is the
multiset (as a list) of packets sent by A that are still pending delivery to
B, and symmetrically `flightBA`.  `subA`/`subB` record the payloads each
side's `send_data` accepted, in submission order, as observation traces. -/
structure Sys where
  epA : TCPishEndpoint
  epB : TCPishEndpoint
  flightAB : List Packet
  flightBA : List Packet
  subA : List (List ℕ)
  subB : List (List ℕ)

/-- Application submits data at A.  `kept` is the channel's nondeterministic
choice of whether the emitted packet survives the loss/corruption/reorder
pipeline and eventually reaches B's `on_receive` (a corrupted packet never
does, by the checksum theorems below, and a packet parked forever in the
reorder buffer never does either). -/
def sysSendA (w : Sys) (now : ℚ) (data : List ℕ) (kept : Bool) : Sys :=
  let r := send_data w.epA now data
  { w with epA := r.st,
           flightAB := if kept then w.flightAB ++ r.out.toList else w.flightAB,
           subA := if r.ok then w.subA ++ [data] else w.subA }

/-- Application submits data at B. -/
def sysSendB (w : Sys) (now : ℚ) (data : List ℕ) (kept : Bool) : Sys :=
  let r := send_data w.epB now data
  { w with epB := r.st,
           flightBA := if kept then w.flightBA ++ r.out.toList else w.flightBA,
           subB := if r.ok then w.subB ++ [data] else w.subB }

/-- Channel delivers a pending packet `p` from A to B; B's reply (cumulative
ACK or fast-retransmitted DATA) enters the opposite flight when `kept`. -/
def sysDeliverAB (w : Sys) (now : ℚ) (p : Packet) (kept : Bool) : Sys :=
  let r := on_receive w.epB now p
  { w with epB := r.st,
           flightAB := w.flightAB.erase p,
           flightBA := if kept then w.flightBA ++ r.out.toList else w.flightBA }

/-- Channel delivers a pending packet `p` from B to A. -/
def sysDeliverBA (w : Sys) (now : ℚ) (p : Packet) (kept : Bool) : Sys :=
  let r := on_receive w.epA now p
  { w with epA := r.st,
           flightBA := w.flightBA.erase p,
           flightAB := if kept then w.flightAB ++ r.out.toList else w.flightAB }

/-- A's retransmission timer callback runs (a cancelled timer's callback may
still race in, so no arming precondition is imposed). -/
def sysTimeoutA (w : Sys) (now : ℚ) (kept : Bool) : Sys :=
  let r := timeout_fire w.epA now
  { w with epA := r.st,
           flightAB := if kept then w.flightAB ++ r.out.toList else w.flightAB }

/-- B's retransmission timer callback runs. -/
def sysTimeoutB (w : Sys) (now : ℚ) (kept : Bool) : Sys :=
  let r := timeout_fire w.epB now
  { w with epB := r.st,
           flightBA := if kept then w.flightBA ++ r.out.toList else w.flightBA }

/-- Application pops a delivered payload at A. -/
def sysRecvA (w : Sys) : Sys :=
  { w with epA := (recv_app_data w.epA).1 }

/-- Application pops a delivered payload at B. -/
def sysRecvB (w : Sys) : Sys :=
  { w with epB := (recv_app_data w.epB).1 }

/-- In-place mutation of a packet dict by the channel pipeline
(`add_checksum` overwrites the checksum field, `maybe_corrupt` rewrites the
payload and sets the corrupted flag; seq, ack and type are never touched). -/
def mutatePkt (p : Packet) (pl : Option (List ℕ)) (c : Option ℤ) (cor : Bool) :
    Packet :=
  { p with payload := pl, checksum := c, corrupted := cor }

/-- Channel-pipeline mutation of the dict object aliased into A's `sent`
map (the endpoint stores the same dict the channel stamps and corrupts). -/
def sysCorruptSentA (w : Sys) (i : ℕ) (pl : Option (List ℕ)) (c : Option ℤ)
    (cor : Bool) : Sys :=
  { w with epA := { w.epA with
      sent := fun j => if j = i
        then (w.epA.sent i).map (fun p => mutatePkt p pl c cor)
        else w.epA.sent j } }

/-- Channel-pipeline mutation of the dict object aliased into B's `sent` map. -/
def sysCorruptSentB (w : Sys) (i : ℕ) (pl : Option (List ℕ)) (c : Option ℤ)
    (cor : Bool) : Sys :=
  { w with epB := { w.epB with
      sent := fun j => if j = i
        then (w.epB.sent i).map (fun p => mutatePkt p pl c cor)
        else w.epB.sent j } }

/-- The two-endpoint transition system: any interleaving of whole handler
runs (the endpoint lock serialises them), with the channel free to drop,
duplicate-by-retransmission, reorder, and mutate the payload/checksum fields
of aliased or pending packet dicts. -/
inductive SysReach : Sys → Prop where
  | init (r1 r2 : ℤ) (a1 b1 k1 ai1 md1 c1 a2 b2 k2 ai2 md2 c2 : ℚ)
      (e1 e2 : Bool) (t1 t2 : ℤ) :
      SysReach { epA := initEndpoint r1 a1 b1 k1 e1 t1 c1 ai1 md1,
                 epB := initEndpoint r2 a2 b2 k2 e2 t2 c2 ai2 md2,
                 flightAB := [], flightBA := [], subA := [], subB := [] }
  | sendA (w : Sys) (now : ℚ) (data : List ℕ) (kept : Bool) :
      SysReach w → SysReach (sysSendA w now data kept)
  | sendB (w : Sys) (now : ℚ) (data : List ℕ) (kept : Bool) :
      SysReach w → SysReach (sysSendB w now data kept)
  | deliverAB (w : Sys) (now : ℚ) (p : Packet) (kept : Bool) :
      SysReach w → p ∈ w.flightAB → SysReach (sysDeliverAB w now p kept)
  | deliverBA (w : Sys) (now : ℚ) (p : Packet) (kept : Bool) :
      SysReach w → p ∈ w.flightBA → SysReach (sysDeliverBA w now p kept)
  | fireA (w : Sys) (now : ℚ) (kept : Bool) :
      SysReach w → SysReach (sysTimeoutA w now kept)
  | fireB (w : Sys) (now : ℚ) (kept : Bool) :
      SysReach w → SysReach (sysTimeoutB w now kept)
  | recvA (w : Sys) : SysReach w → SysReach (sysRecvA w)
  | recvB (w : Sys) : SysReach w → SysReach (sysRecvB w)
  | corruptSentA (w : Sys) (i : ℕ) (pl : Option (List ℕ)) (c : Option ℤ)
      (cor : Bool) :
      SysReach w → SysReach (sysCorruptSentA w i pl c cor)
  | corruptSentB (w : Sys) (i : ℕ) (pl : Option (List ℕ)) (c : Option ℤ)
      (cor : Bool) :
      SysReach w → SysReach (sysCorruptSentB w i pl c cor)
  | mutateAB (w : Sys) (p : Packet) (pl : Option (List ℕ)) (c : Option ℤ)
      (cor : Bool) :
      SysReach w → p ∈ w.flightAB →
      SysReach { w with flightAB := mutatePkt p pl c cor :: w.flightAB.erase p }
  | mutateBA (w : Sys) (p : Packet) (pl : Option (List ℕ)) (c : Option ℤ)
      (cor : Bool) :
      SysReach w → p ∈ w.flightBA →
      SysReach { w with flightBA := mutatePkt p pl c cor :: w.flightBA.erase p }

/-! ### Characterization lemmas for the handlers (used throughout) -/

theorem send_data_accept (s : TCPishEndpoint) (now : ℚ) (data : List ℕ)
    (hc : (s.nextseq : ℚ) < (s.base : ℚ) +
      (if s.enable_congestion_control then s.cwnd else (s.window : ℚ))) :
    send_data s now data =
      { ok := true,
        st := { s with nextseq := s.nextseq + 1,
                       sent := upd s.sent s.nextseq (mkData s.nextseq data),
                       sent_ts := upd s.sent_ts s.nextseq now,
                       packets_sent := s.packets_sent + 1,
                       timerArmed := if s.base = s.nextseq then true else s.timerArmed },
        out := some (mkData s.nextseq data) } := by
  simp only [send_data, if_pos hc]
  by_cases hb : s.base = s.nextseq <;> simp [hb]

theorem send_data_reject (s : TCPishEndpoint) (now : ℚ) (data : List ℕ)
    (hc : ¬ (s.nextseq : ℚ) < (s.base : ℚ) +
      (if s.enable_congestion_control then s.cwnd else (s.window : ℚ))) :
    send_data s now data = { ok := false, st := s, out := none } := by
  simp [send_data, if_neg hc]

theorem on_receive_data_eq (s : TCPishEndpoint) (now : ℚ) (p : Packet)
    (hp : p.ptype = "DATA") :
    on_receive s now p = on_receive_data s p := by
  simp [on_receive, hp]

theorem on_receive_ack_new (s : TCPishEndpoint) (now : ℚ) (p : Packet) (a : ℤ)
    (hp : p.ptype = "ACK") (ha : p.ack = some a) (h : (s.base : ℤ) ≤ a) :
    on_receive s now p = on_receive_newack s now a := by
  simp [on_receive, hp, ha, h]

theorem on_receive_ack_old (s : TCPishEndpoint) (now : ℚ) (p : Packet) (a : ℤ)
    (hp : p.ptype = "ACK") (ha : p.ack = some a) (h : a < (s.base : ℤ)) :
    on_receive s now p = on_receive_oldack s now a := by
  simp [on_receive, hp, ha, not_le.mpr h]

theorem on_receive_other (s : TCPishEndpoint) (now : ℚ) (p : Packet)
    (h1 : p.ptype ≠ "DATA") (h2 : p.ptype ≠ "ACK") :
    on_receive s now p = { st := s, out := none } := by
  simp [on_receive, h1, h2]

theorem data_accept (s : TCPishEndpoint) (p : Packet)
    (hacc : (p.seq.getD 0 : ℤ) = s.last_acked + 1) :
    on_receive_data s p =
      { st := { s with app_rx := s.app_rx ++ [p.payload.getD []],
                       last_acked := s.last_acked + 1,
                       packets_received := s.packets_received + 1,
                       cwnd := if s.enable_congestion_control ∧ s.cwnd < (s.ssthresh : ℚ)
                               then s.cwnd + 1
                               else if s.enable_congestion_control
                               then s.cwnd + s.ai_factor / s.cwnd
                               else s.cwnd },
        out := some (mkAck (s.last_acked + 1)) } := by
  by_cases hcc : s.enable_congestion_control
  · by_cases hlt : s.cwnd < (s.ssthresh : ℚ) <;>
      simp [on_receive_data, hacc, hcc, hlt]
  · simp [on_receive_data, hacc, hcc]

theorem data_reject (s : TCPishEndpoint) (p : Packet)
    (hne : (p.seq.getD 0 : ℤ) ≠ s.last_acked + 1) :
    on_receive_data s p = { st := s, out := some (mkAck s.last_acked) } := by
  simp [on_receive_data, hne]

theorem oldack_other (s : TCPishEndpoint) (now : ℚ) (a : ℤ)
    (hd : a ≠ s.last_acked) :
    on_receive_oldack s now a = { st := s, out := none } := by
  simp [on_receive_oldack, hd]

theorem oldack_dup_low (s : TCPishEndpoint) (now : ℚ) (a : ℤ)
    (hd : a = s.last_acked) (h3 : ¬ 3 ≤ s.dup_count + 1) :
    on_receive_oldack s now a =
      { st := { s with dup_count := s.dup_count + 1 }, out := none } := by
  simp [on_receive_oldack, hd, h3]

theorem oldack_dup_nosent (s : TCPishEndpoint) (now : ℚ) (a : ℤ)
    (hd : a = s.last_acked) (h3 : 3 ≤ s.dup_count + 1)
    (hsb : s.sent s.base = none) :
    on_receive_oldack s now a =
      { st := { s with dup_count := s.dup_count + 1 }, out := none } := by
  simp [on_receive_oldack, hd, h3, hsb]

theorem oldack_fast (s : TCPishEndpoint) (now : ℚ) (a : ℤ) (pkt : Packet)
    (hd : a = s.last_acked) (h3 : 3 ≤ s.dup_count + 1)
    (hsb : s.sent s.base = some pkt) :
    on_receive_oldack s now a =
      { st := { s with dup_count := s.dup_count + 1,
                       fast_retransmits := s.fast_retransmits + 1,
                       sent_ts := upd s.sent_ts s.base now,
                       retransmissions := s.retransmissions + 1,
                       ssthresh := if s.enable_congestion_control
                                   then max 2 (pyInt (s.cwnd * s.md_factor))
                                   else s.ssthresh,
                       cwnd := if s.enable_congestion_control
                               then ((max 2 (pyInt (s.cwnd * s.md_factor)) : ℤ) : ℚ)
                               else s.cwnd,
                       timerArmed := true },
        out := some pkt } := by
  by_cases hcc : s.enable_congestion_control <;>
    simp [on_receive_oldack, hd, h3, hsb, hcc]

theorem newack_fields (s : TCPishEndpoint) (now : ℚ) (a : ℤ) :
    (on_receive_newack s now a).st.base = (a + 1).toNat ∧
    (on_receive_newack s now a).st.nextseq = s.nextseq ∧
    (on_receive_newack s now a).st.sent = s.sent ∧
    (on_receive_newack s now a).st.last_acked = s.last_acked ∧
    (on_receive_newack s now a).st.app_rx = s.app_rx ∧
    (on_receive_newack s now a).st.cwnd = s.cwnd ∧
    (on_receive_newack s now a).st.ssthresh = s.ssthresh ∧
    (on_receive_newack s now a).st.ai_factor = s.ai_factor ∧
    (on_receive_newack s now a).st.md_factor = s.md_factor ∧
    (on_receive_newack s now a).st.enable_congestion_control =
      s.enable_congestion_control ∧
    (on_receive_newack s now a).st.dup_count = 0 ∧
    (on_receive_newack s now a).out = none := by
  unfold on_receive_newack
  rcases h1 : s.sent_ts a.toNat with _ | ts
  · simp only [h1]
    by_cases hb : (a + 1).toNat = s.nextseq <;> simp [hb]
  · simp only [h1]
    rcases h2 : s.srtt with _ | s0 <;>
      · simp only [h2]
        by_cases hb : (a + 1).toNat = s.nextseq <;> simp [hb]

theorem timeout_some (s : TCPishEndpoint) (now : ℚ) (pkt : Packet)
    (hsb : s.sent s.base = some pkt) :
    timeout_fire s now =
      { st := { s with timeouts := s.timeouts + 1,
                       sent_ts := upd s.sent_ts s.base now,
                       retransmissions := s.retransmissions + 1,
                       ssthresh := if s.enable_congestion_control
                                   then max 2 (pyInt (s.cwnd * s.md_factor))
                                   else s.ssthresh,
                       cwnd := if s.enable_congestion_control then 1 else s.cwnd,
                       rto_ms := min 60000 (2 * s.rto_ms),
                       timerArmed := true },
        out := some pkt } := by
  by_cases hcc : s.enable_congestion_control <;> simp [timeout_fire, hsb, hcc]

theorem timeout_none (s : TCPishEndpoint) (now : ℚ)
    (hsb : s.sent s.base = none) :
    timeout_fire s now =
      { st := { s with timeouts := s.timeouts + 1 }, out := none } := by
  simp [timeout_fire, hsb]

/-! ### Claim C10: rejected send leaves the endpoint unchanged -/

/-- C10: whenever send_data returns false (window full), the endpoint state is
unchanged — no packet is created or handed to the channel, and every field
keeps its prior value. -/
theorem c10_send_reject_no_change (s : TCPishEndpoint) (now : ℚ) (data : List ℕ)
    (h : (send_data s now data).ok = false) :
    (send_data s now data).st = s ∧ (send_data s now data).out = none := by
  by_cases hc : (s.nextseq : ℚ) <
      (s.base : ℚ) + (if s.enable_congestion_control then s.cwnd else (s.window : ℚ))
  · exact absurd h (by simp [send_data, if_pos hc])
  · constructor <;> simp [send_data, if_neg hc]

/-- C10 witness: at the default endpoint after one accepted send the window
(cwnd = 1) is full, the second send is rejected and changes nothing. -/
theorem c10_send_reject_no_change_witness :
    (send_data (send_data defaultEndpoint 0 [1]).st 0 [2]).ok = false ∧
    (send_data (send_data defaultEndpoint 0 [1]).st 0 [2]).st =
      (send_data defaultEndpoint 0 [1]).st ∧
    (send_data (send_data defaultEndpoint 0 [1]).st 0 [2]).out = none := by
  refine ⟨by norm_num [send_data, defaultEndpoint, initEndpoint], ?_⟩
  exact c10_send_reject_no_change (send_data defaultEndpoint 0 [1]).st 0 [2]
    (by norm_num [send_data, defaultEndpoint, initEndpoint])

/-! ### Claim C5: the send_data acceptance condition and effects -/

/-- C5 counterexample: the code compares `nextseq < base + cwnd` with the
fractional congestion window itself, not with `floor(cwnd)`.  The state below
is reached from a validly constructed endpoint (ssthresh_init = 1) purely by
`send_data`/`on_receive` steps and has cwnd = 5/2, base = 0, nextseq = 2: the
claim (with `floor(cwnd)` = 2) says the next send is rejected, but the code
accepts it. -/
def c5state : TCPishEndpoint :=
  (on_receive
    (send_data
      (on_receive
        (send_data (initEndpoint 200 (1/8) (1/4) 4 true 1 1 1 (1/2)) 0 [1]).st
        0 (mkData 0 [5])).st
      0 [2]).st
    0 (mkData 1 [6])).st

theorem c5_window_floor_counterexample :
    c5state.cwnd = 5 / 2 ∧ c5state.base = 0 ∧ c5state.nextseq = 2 ∧
    (send_data c5state 0 [3]).ok = true ∧
    ¬ ((c5state.nextseq : ℤ) < (c5state.base : ℤ) + ⌊c5state.cwnd⌋) := by
  refine ⟨?_, ?_, ?_, ?_, ?_⟩ <;>
    norm_num [c5state, send_data, on_receive, on_receive_data, initEndpoint, mkData]

/-- C5 amended: send_data accepts the payload iff nextseq < base + cwnd with
the fractional congestion window itself (equivalently, effective window
ceil(cwnd)) when congestion control is enabled — not floor(cwnd) — and
nextseq < base + window otherwise; on acceptance it creates
DATA{seq = nextseq, payload = bytes}, records it in sent and sent_ts[seq] =
now, hands it to the channel, increments packets_sent, arms the timer exactly
when seq == base, increments nextseq and returns true; otherwise it returns
false and leaves the state unchanged. -/
theorem c5_send_window_amended (s : TCPishEndpoint) (now : ℚ) (data : List ℕ) :
    ((send_data s now data).ok = true ↔
      (s.nextseq : ℚ) < (s.base : ℚ) +
        (if s.enable_congestion_control then s.cwnd else (s.window : ℚ))) ∧
    ((send_data s now data).ok = true →
      (send_data s now data).out = some (mkData s.nextseq data) ∧
      (send_data s now data).st.sent = upd s.sent s.nextseq (mkData s.nextseq data) ∧
      (send_data s now data).st.sent_ts = upd s.sent_ts s.nextseq now ∧
      (send_data s now data).st.packets_sent = s.packets_sent + 1 ∧
      (send_data s now data).st.nextseq = s.nextseq + 1 ∧
      (send_data s now data).st.base = s.base ∧
      (s.base = s.nextseq → (send_data s now data).st.timerArmed = true) ∧
      (s.base ≠ s.nextseq → (send_data s now data).st.timerArmed = s.timerArmed)) ∧
    ((send_data s now data).ok = false → (send_data s now data).st = s) := by
  by_cases hc : (s.nextseq : ℚ) <
      (s.base : ℚ) + (if s.enable_congestion_control then s.cwnd else (s.window : ℚ))
  · simp only [send_data, if_pos hc]
    by_cases hb : s.base = s.nextseq <;> simp [hb, hc]
    rw [hb] at hc
    linarith
  · simp only [send_data, if_neg hc]
    simp [hc]

/-- C5 amended witness: the default endpoint (cwnd = 1) accepts its first
send and advances nextseq. -/
theorem c5_send_window_amended_witness :
    (send_data defaultEndpoint 0 [9]).ok = true ∧
    (send_data defaultEndpoint 0 [9]).st.nextseq = defaultEndpoint.nextseq + 1 := by
  have h := c5_send_window_amended defaultEndpoint 0 [9]
  have hok : (send_data defaultEndpoint 0 [9]).ok = true :=
    h.1.mpr (by norm_num [defaultEndpoint, initEndpoint])
  exact ⟨hok, (h.2.1 hok).2.2.2.2.1⟩

/-! ### Claim C8: timeout handling -/

/-- C8: when the retransmission timer fires, the timeout counter is
incremented; with sent[base] present (always the case for a timer armed over
an in-flight window, since sent is never pruned) the endpoint resends
sent[base], sets sent_ts[base] to now, increments the retransmission counter,
applies (with congestion control enabled) ssthresh := max(2, floor(cwnd *
md_factor)) and cwnd := 1, sets the new RTO to the previous RTO times 2
clamped to at most 60000 ms, and re-arms the timer. -/
theorem c8_timeout_behavior (s : TCPishEndpoint) (now : ℚ) (pkt : Packet)
    (hs : s.sent s.base = some pkt)
    (hcc : s.enable_congestion_control = true) :
    (timeout_fire s now).st.timeouts = s.timeouts + 1 ∧
    (timeout_fire s now).out = some pkt ∧
    (timeout_fire s now).st.sent_ts s.base = some now ∧
    (timeout_fire s now).st.retransmissions = s.retransmissions + 1 ∧
    (timeout_fire s now).st.ssthresh = max 2 (pyInt (s.cwnd * s.md_factor)) ∧
    (timeout_fire s now).st.cwnd = 1 ∧
    (timeout_fire s now).st.rto_ms = min 60000 (2 * s.rto_ms) ∧
    (timeout_fire s now).st.timerArmed = true := by
  simp [timeout_fire, hs, hcc, upd]

/-- C8 witness: default endpoint after one accepted send; its timer fires at
time 1.  RTO doubles from 200 to 400, ssthresh becomes max 2 (pyInt (1/2)) =
2, cwnd restarts at 1. -/
theorem c8_timeout_behavior_witness :
    (timeout_fire (send_data defaultEndpoint 0 [3]).st 1).st.timeouts = 1 ∧
    (timeout_fire (send_data defaultEndpoint 0 [3]).st 1).out = some (mkData 0 [3]) ∧
    (timeout_fire (send_data defaultEndpoint 0 [3]).st 1).st.rto_ms = 400 ∧
    (timeout_fire (send_data defaultEndpoint 0 [3]).st 1).st.ssthresh = 2 ∧
    (timeout_fire (send_data defaultEndpoint 0 [3]).st 1).st.cwnd = 1 := by
  have hs : (send_data defaultEndpoint 0 [3]).st.sent
      (send_data defaultEndpoint 0 [3]).st.base = some (mkData 0 [3]) := by
    norm_num [send_data, defaultEndpoint, initEndpoint, upd]
  have h := c8_timeout_behavior (send_data defaultEndpoint 0 [3]).st 1 (mkData 0 [3])
    hs (by norm_num [send_data, defaultEndpoint, initEndpoint])
  refine ⟨?_, h.2.1, ?_, ?_, h.2.2.2.2.2.1⟩
  · rw [h.1]; norm_num [send_data, defaultEndpoint, initEndpoint]
  · rw [h.2.2.2.2.2.2.1]; norm_num [send_data, defaultEndpoint, initEndpoint]
  · rw [h.2.2.2.2.1]; norm_num [send_data, defaultEndpoint, initEndpoint, pyInt]

/-! ### Claim C4: duplicate-ACK counting and fast retransmit -/

/-- C4 counterexample setup: an endpoint (congestion control off, static
window 8) that has sent one packet (seq 0).  This is the state
`(send_data (initEndpoint 200 (1/8) (1/4) 4 false 65535 1 1 (1/2)) 0 [1]).st`,
written out literally (the first counterexample conjunct proves the
equality); the endpoint then receives the duplicate ACK -1 four times.  The
code's guard is `dup_count >= 3`, not `== 3`, and dup_count is not reset, so
the fourth duplicate triggers a second fast retransmit. -/
def c4start : TCPishEndpoint :=
  { initEndpoint 200 (1/8) (1/4) 4 false 65535 1 1 (1/2) with
    nextseq := 1, sent := upd (fun _ => none) 0 (mkData 0 [1]),
    sent_ts := upd (fun _ => none) 0 0, packets_sent := 1, timerArmed := true }

def c4dup1 : TCPishEndpoint := (on_receive c4start 0 (mkAck (-1))).st

def c4dup2 : TCPishEndpoint := (on_receive c4dup1 0 (mkAck (-1))).st

def c4dup3 : TCPishEndpoint := (on_receive c4dup2 0 (mkAck (-1))).st

/-- C4 counterexample: after the third duplicate ACK the endpoint has
performed one fast retransmit (dup_count = 3); the fourth duplicate ACK —
dup_count reaching 4, not 3 — performs a second fast retransmit, resending
sent[base] again, contradicting the claim that fast retransmit is performed
exactly when dup_count reaches 3 and not on later duplicates. -/
theorem c4_fast_retransmit_repeats_counterexample :
    c4start = (send_data (initEndpoint 200 (1/8) (1/4) 4 false 65535 1 1 (1/2)) 0 [1]).st ∧
    c4dup3.dup_count = 3 ∧ c4dup3.fast_retransmits = 1 ∧
    (on_receive c4dup3 0 (mkAck (-1))).st.dup_count = 4 ∧
    (on_receive c4dup3 0 (mkAck (-1))).st.fast_retransmits = 2 ∧
    (on_receive c4dup3 0 (mkAck (-1))).out = some (mkData 0 [1]) := by
  refine ⟨?_, by decide, by decide, by decide, by decide, by decide⟩
  rw [send_data_accept _ _ _ (by norm_num [initEndpoint])]
  simp [c4start, initEndpoint]

/-- C4 amended: for a received ACK value a < base, dup_count is incremented
iff a equals the endpoint's last_acked field (otherwise the state is
untouched), and fast retransmit — resend sent[base], stamp sent_ts[base] :=
now, count the retransmission, apply the fast-recovery decrease when
congestion control is on, re-arm the timer — is performed whenever the
incremented dup_count is at least 3 and sent[base] exists, hence on the
third duplicate and again on every later consecutive duplicate, since
dup_count resets only on the next new ACK. -/
theorem c4_dup_ack_amended (s : TCPishEndpoint) (now : ℚ) (a : ℤ)
    (h : a < (s.base : ℤ)) :
    (a ≠ s.last_acked →
      (on_receive s now (mkAck a)).st = s ∧ (on_receive s now (mkAck a)).out = none) ∧
    (a = s.last_acked →
      (on_receive s now (mkAck a)).st.dup_count = s.dup_count + 1 ∧
      ((¬ 3 ≤ s.dup_count + 1) ∨ s.sent s.base = none →
        (on_receive s now (mkAck a)).st = { s with dup_count := s.dup_count + 1 } ∧
        (on_receive s now (mkAck a)).out = none) ∧
      (∀ pkt, s.sent s.base = some pkt → 3 ≤ s.dup_count + 1 →
        (on_receive s now (mkAck a)).out = some pkt ∧
        (on_receive s now (mkAck a)).st.fast_retransmits = s.fast_retransmits + 1 ∧
        (on_receive s now (mkAck a)).st.sent_ts s.base = some now ∧
        (on_receive s now (mkAck a)).st.retransmissions = s.retransmissions + 1 ∧
        (on_receive s now (mkAck a)).st.timerArmed = true ∧
        (s.enable_congestion_control = true →
          (on_receive s now (mkAck a)).st.ssthresh =
            max 2 (pyInt (s.cwnd * s.md_factor)) ∧
          (on_receive s now (mkAck a)).st.cwnd =
            ((max 2 (pyInt (s.cwnd * s.md_factor)) : ℤ) : ℚ)) ∧
        (s.enable_congestion_control = false →
          (on_receive s now (mkAck a)).st.ssthresh = s.ssthresh ∧
          (on_receive s now (mkAck a)).st.cwnd = s.cwnd))) := by
  have hba : ¬ ((s.base : ℤ) ≤ a) := not_le.mpr h
  have hrec : on_receive s now (mkAck a) = on_receive_oldack s now a := by
    simp [on_receive, mkAck, hba]
  rw [hrec]
  by_cases hd : a = s.last_acked
  · by_cases h3 : 3 ≤ s.dup_count + 1
    · rcases hsb : s.sent s.base with _ | pkt
      · simp [on_receive_oldack, hd, h3, hsb]
      · by_cases hcc : s.enable_congestion_control <;>
          simp [on_receive_oldack, hd, h3, hsb, hcc, upd]
    · simp [on_receive_oldack, hd, h3]
  · simp [on_receive_oldack, hd]

/-- C4 amended witness: the endpoint c4start (base = 0, last_acked = -1)
receives the duplicate ACK -1: dup_count goes from 0 to 1. -/
theorem c4_dup_ack_amended_witness :
    (on_receive c4start 0 (mkAck (-1))).st.dup_count = c4start.dup_count + 1 := by
  have h := c4_dup_ack_amended c4start 0 (-1) (by decide)
  exact (h.2 (by decide)).1

/-! ### Claim C7: the RTT estimator -/

/-- C7 counterexample: on the first RTT sample 0.0501 s the estimator sets
SRTT = 0.0501, RTTVAR = 0.02505, so SRTT + K*RTTVAR = 0.1503 s = 150.3 ms;
the code stores RTO = int(1000*(SRTT + K*RTTVAR)) = 150 ms, while the claim's
RTO = SRTT + K*RTTVAR clamped to [100 ms, 60000 ms] is 150.3 ms.  The claim
omits the truncation to whole milliseconds. -/
theorem c7_rto_truncation_counterexample :
    (on_receive c4start (501/10000) (mkAck 0)).st.srtt = some (501/10000) ∧
    (on_receive c4start (501/10000) (mkAck 0)).st.rttvar = some (501/20000) ∧
    (on_receive c4start (501/10000) (mkAck 0)).st.rto_ms = 150 ∧
    max (100 : ℚ) (min (1000 * (501/10000 + 4 * (501/20000))) 60000) ≠
      (((on_receive c4start (501/10000) (mkAck 0)).st.rto_ms : ℤ) : ℚ) := by
  have h150 : ⌊(1503/10 : ℚ)⌋ = (150 : ℤ) := by
    rw [Int.floor_eq_iff] <;> norm_num
  rw [on_receive_ack_new c4start (501/10000) (mkAck 0) 0 rfl rfl (by decide)]
  refine ⟨?_, ?_, ?_, ?_⟩ <;>
    norm_num [on_receive_newack, c4start, initEndpoint, upd, pyInt, h150]

/-- C7 amended: on a new ACK a ≥ base whose value has a recorded send
timestamp, the endpoint takes the RTT sample max(0, now - sent_ts[a]) and
appends it (in ms) to rtt_samples; the first sample sets SRTT := s and
RTTVAR := s/2; each later sample sets RTTVAR := (1-β)RTTVAR + β|SRTT - s|
then SRTT := (1-α)SRTT + αs; after every sample the stored RTO is
int(1000·(SRTT + K·RTTVAR)) — the value in milliseconds truncated to an
integer — clamped to [100, 60000]. -/
theorem c7_rtt_estimator_amended (s : TCPishEndpoint) (now ts : ℚ) (a : ℤ)
    (hb : (s.base : ℤ) ≤ a) (hts : s.sent_ts a.toNat = some ts) :
    ((on_receive s now (mkAck a)).st.rtt_samples =
        s.rtt_samples ++ [max 0 (now - ts) * 1000]) ∧
    (s.srtt = none →
      (on_receive s now (mkAck a)).st.srtt = some (max 0 (now - ts)) ∧
      (on_receive s now (mkAck a)).st.rttvar = some (max 0 (now - ts) / 2)) ∧
    (∀ s0 v0, s.srtt = some s0 → s.rttvar = some v0 →
      (on_receive s now (mkAck a)).st.rttvar =
        some ((1 - s.beta) * v0 + s.beta * |s0 - max 0 (now - ts)|) ∧
      (on_receive s now (mkAck a)).st.srtt =
        some ((1 - s.alpha) * s0 + s.alpha * max 0 (now - ts))) ∧
    (∀ s1 v1, (on_receive s now (mkAck a)).st.srtt = some s1 →
      (on_receive s now (mkAck a)).st.rttvar = some v1 →
      (on_receive s now (mkAck a)).st.rto_ms =
        max 100 (min (pyInt (1000 * (s1 + s.k * v1))) 60000)) := by
  rw [on_receive_ack_new s now (mkAck a) a rfl rfl hb]
  unfold on_receive_newack
  simp only [hts]
  rcases h2 : s.srtt with _ | s0
  · simp only [h2]
    by_cases hb2 : ((a + 1).toNat = s.nextseq) <;> simp [hb2, h2]
  · simp only [h2]
    by_cases hb2 : ((a + 1).toNat = s.nextseq) <;>
      · simp [hb2, h2]
        intro x y hxy hv
        subst hxy
        simp [hv]

/-- C7 amended witness: first sample at the one-packet endpoint c4start. -/
theorem c7_rtt_estimator_amended_witness :
    (on_receive c4start (501/10000) (mkAck 0)).st.srtt =
      some (max 0 ((501:ℚ)/10000 - 0)) ∧
    (on_receive c4start (501/10000) (mkAck 0)).st.rttvar =
      some (max 0 ((501:ℚ)/10000 - 0) / 2) := by
  exact (c7_rtt_estimator_amended c4start (501/10000) 0 0 (by decide)
    (by simp [c4start, initEndpoint, upd])).2.1 rfl

/-! ### Claim C6: checksum round-trip and single-byte corruption detection -/

theorem calculate_checksum_set_checksum (p : Packet) (c : Option ℤ) :
    calculate_checksum { p with checksum := c } = calculate_checksum p := rfl

theorem intXor_natCast (x y : ℕ) : Int.xor (x : ℤ) (y : ℤ) = ((x ^^^ y : ℕ) : ℤ) := rfl

theorem intXor_comm (a b : ℤ) : Int.xor a b = Int.xor b a := by
  cases a <;> cases b <;> simp [Int.xor, Nat.xor_comm]

theorem intXor_assoc (a b c : ℤ) :
    Int.xor (Int.xor a b) c = Int.xor a (Int.xor b c) := by
  cases a <;> cases b <;> cases c <;> simp [Int.xor, Nat.xor_assoc]

theorem payloadXor_cons (acc : ℤ) (b : ℕ) (rest : List ℕ) :
    payloadXor acc (b :: rest) = payloadXor (Int.xor acc (b : ℤ)) rest := rfl

theorem payloadXor_xor (pl : List ℕ) (acc x : ℤ) :
    payloadXor (Int.xor acc x) pl = Int.xor (payloadXor acc pl) x := by
  induction pl generalizing acc with
  | nil => rfl
  | cons b rest ih =>
    rw [payloadXor_cons, payloadXor_cons,
        show Int.xor (Int.xor acc x) (b : ℤ) = Int.xor (Int.xor acc (b : ℤ)) x by
          rw [intXor_assoc, intXor_comm x (b : ℤ), ← intXor_assoc],
        ih]

theorem payloadXor_set (pl : List ℕ) (acc : ℤ) (i : ℕ) (b' : ℕ)
    (h : i < pl.length) :
    payloadXor acc (pl.set i b') =
      Int.xor (payloadXor acc pl) ((pl.getD i 0 ^^^ b' : ℕ) : ℤ) := by
  induction pl generalizing acc i with
  | nil => simp at h
  | cons b rest ih =>
    cases i with
    | zero =>
      simp only [List.set, List.getD_cons_zero, payloadXor_cons]
      rw [payloadXor_xor, payloadXor_xor, intXor_assoc, intXor_natCast,
          ← Nat.xor_assoc, Nat.xor_self, Nat.zero_xor]
    | succ j =>
      simp only [List.set, List.getD_cons_succ, payloadXor_cons]
      exact ih (Int.xor acc (b : ℤ)) j (by simpa using h)

theorem mask_xor_ne (m d : ℕ) (hd : d ≠ 0) (hlt : d < 65536) :
    (m ^^^ d) &&& 65535 ≠ m &&& 65535 := by
  obtain ⟨k, hk⟩ : ∃ k, d.testBit k = true := by
    by_contra h
    push_neg at h
    exact hd (Nat.zero_of_testBit_eq_false (by simpa using h))
  have hk16 : k < 16 := by
    by_contra hge
    push_neg at hge
    have hf : d.testBit k = false :=
      Nat.testBit_eq_false_of_lt
        (lt_of_lt_of_le hlt (Nat.pow_le_pow_right (show 0 < 2 by norm_num) hge))
    simp [hf] at hk
  have hmask : Nat.testBit 65535 k = true := by
    have h16 : (65535 : ℕ) = 2 ^ 16 - 1 := by norm_num
    rw [h16, Nat.testBit_two_pow_sub_one]
    simpa using hk16
  intro heq
  have h1 := congrArg (fun x => Nat.testBit x k) heq
  simp only [Nat.testBit_and, Nat.testBit_xor, hmask, hk] at h1
  rcases hm : Nat.testBit m k <;> simp [hm] at h1

theorem ldiff_mask_xor_ne (m d : ℕ) (hd : d ≠ 0) (hlt : d < 65536) :
    Nat.ldiff 65535 (m ^^^ d) ≠ Nat.ldiff 65535 m := by
  obtain ⟨k, hk⟩ : ∃ k, d.testBit k = true := by
    by_contra h
    push_neg at h
    exact hd (Nat.zero_of_testBit_eq_false (by simpa using h))
  have hk16 : k < 16 := by
    by_contra hge
    push_neg at hge
    have hf : d.testBit k = false :=
      Nat.testBit_eq_false_of_lt
        (lt_of_lt_of_le hlt (Nat.pow_le_pow_right (show 0 < 2 by norm_num) hge))
    simp [hf] at hk
  have hmask : Nat.testBit 65535 k = true := by
    have h16 : (65535 : ℕ) = 2 ^ 16 - 1 := by norm_num
    rw [h16, Nat.testBit_two_pow_sub_one]
    simpa using hk16
  intro heq
  have h1 := congrArg (fun x => Nat.testBit x k) heq
  simp only [Nat.testBit_ldiff, Nat.testBit_xor, hmask, hk] at h1
  rcases hm : Nat.testBit m k <;> simp [hm] at h1

theorem int_mask_xor_ne (acc : ℤ) (d : ℕ) (hd : d ≠ 0) (hlt : d < 65536) :
    Int.land (Int.xor acc (d : ℤ)) 65535 ≠ Int.land acc 65535 := by
  cases acc with
  | ofNat m =>
    show (((m ^^^ d) &&& 65535 : ℕ) : ℤ) ≠ ((m &&& 65535 : ℕ) : ℤ)
    exact_mod_cast mask_xor_ne m d hd hlt
  | negSucc m =>
    show ((Nat.ldiff 65535 (m ^^^ d) : ℕ) : ℤ) ≠ ((Nat.ldiff 65535 m : ℕ) : ℤ)
    exact_mod_cast ldiff_mask_xor_ne m d hd hlt

/-- Replacing payload byte i of a packet by a different byte value changes the
computed checksum (all bytes below 256, so the XOR difference stays inside
the 16-bit mask). -/
theorem calculate_checksum_set_ne (p : Packet) (pl : List ℕ) (i b' : ℕ)
    (hp : p.payload = some pl) (hi : i < pl.length)
    (hb : ∀ x ∈ pl, x < 256) (hb' : b' < 256) (hne : b' ≠ pl.getD i 0) :
    calculate_checksum { p with payload := some (pl.set i b') } ≠
      calculate_checksum p := by
  have hbyte : pl.getD i 0 ∈ pl := by
    rw [List.getD_eq_getElem pl 0 hi]
    exact List.getElem_mem hi
  have hblt : pl.getD i 0 < 256 := hb _ hbyte
  have hd0 : pl.getD i 0 ^^^ b' ≠ 0 := by
    rw [Ne, Nat.xor_eq_zero]
    exact fun hx => hne hx.symm
  have hdlt : pl.getD i 0 ^^^ b' < 65536 :=
    lt_of_lt_of_le
      (show pl.getD i 0 ^^^ b' < 256 from Nat.xor_lt_two_pow (n := 8) hblt hb')
      (by norm_num)
  unfold calculate_checksum
  simp only [hp]
  rw [payloadXor_set pl _ i b' hi]
  exact int_mask_xor_ne _ _ hd0 hdlt

/-- C6: verify_checksum(add_checksum(p)) is true for every packet; for a
stamped packet with non-empty payload of bytes, replacing any single payload
byte by a different byte value makes verify_checksum false; hence every
packet actually mutated by maybe_corrupt after stamping (which bumps one
payload byte by 1 mod 256) fails verification at delivery. -/
theorem c6_checksum_detects_corruption :
    (∀ p : Packet, verify_checksum (add_checksum p) = true) ∧
    (∀ (p : Packet) (pl : List ℕ) (i b' : ℕ),
      p.payload = some pl → i < pl.length → (∀ x ∈ pl, x < 256) → b' < 256 →
      b' ≠ pl.getD i 0 →
      verify_checksum { add_checksum p with payload := some (pl.set i b') } =
        false) ∧
    (∀ (p : Packet) (idx : ℕ) (l : UnreliableLink) (pl : List ℕ),
      p.payload = some pl → pl ≠ [] → idx < pl.length → (∀ x ∈ pl, x < 256) →
      verify_checksum (maybe_corrupt true idx l (add_checksum p)).2 = false) := by
  refine ⟨?_, ?_, ?_⟩
  · intro p
    simp [verify_checksum, add_checksum, calculate_checksum_set_checksum]
  · intro p pl i b' hp hi hb hb' hne
    have hc : calculate_checksum { p with payload := some (pl.set i b') } ≠
        calculate_checksum p :=
      calculate_checksum_set_ne p pl i b' hp hi hb hb' hne
    simp only [verify_checksum, add_checksum]
    rw [beq_eq_false_iff_ne]
    exact fun hx => hc (by simpa using hx.symm)
  · intro p idx l pl hp hne hi hb
    have hblt : pl.getD idx 0 < 256 := by
      refine hb _ ?_
      rw [List.getD_eq_getElem pl 0 hi]
      exact List.getElem_mem hi
    have hbne : (pl.getD idx 0 + 1) % 256 ≠ pl.getD idx 0 := by
      rcases Nat.lt_or_ge (pl.getD idx 0 + 1) 256 with hlt | hge
      · rw [Nat.mod_eq_of_lt hlt]
        omega
      · have h255 : pl.getD idx 0 = 255 := by omega
        rw [h255]
        norm_num
    have hkeep : (add_checksum p).payload = some pl := hp
    have hres : (maybe_corrupt true idx l (add_checksum p)).2 =
        { add_checksum p with
          payload := some (pl.set idx ((pl.getD idx 0 + 1) % 256)),
          corrupted := true } := by
      simp [maybe_corrupt, hkeep, hne]
    rw [hres]
    have hc : calculate_checksum
        { p with payload := some (pl.set idx ((pl.getD idx 0 + 1) % 256)) } ≠
        calculate_checksum p :=
      calculate_checksum_set_ne p pl idx ((pl.getD idx 0 + 1) % 256) hp hi hb
        (Nat.mod_lt _ (by norm_num)) hbne
    simp only [verify_checksum, add_checksum]
    rw [beq_eq_false_iff_ne]
    exact fun hx => hc (by simpa using hx.symm)

/-- C6 witness: concrete round-trip, detection of a single replaced byte, and
detection of a maybe_corrupt mutation, on the packet DATA{seq 0, payload [7]}. -/
theorem c6_checksum_detects_corruption_witness :
    verify_checksum (add_checksum (mkData 0 [7])) = true ∧
    verify_checksum { add_checksum (mkData 0 [7]) with
      payload := some ([7].set 0 9) } = false ∧
    verify_checksum
      (maybe_corrupt true 0 (initLink 0 0 0 0 1) (add_checksum (mkData 0 [7]))).2 =
      false := by
  refine ⟨c6_checksum_detects_corruption.1 (mkData 0 [7]),
    c6_checksum_detects_corruption.2.1 (mkData 0 [7]) [7] 0 9 rfl (by norm_num)
      (by norm_num) (by norm_num) (by norm_num),
    c6_checksum_detects_corruption.2.2 (mkData 0 [7]) 0 (initLink 0 0 0 0 1) [7]
      rfl (by norm_num) (by norm_num) (by norm_num)⟩

/-! ### Claim C3: maybe_reorder packet accounting -/

theorem maybe_reorder_zero (d : Bool) (l : UnreliableLink) (p : Packet)
    (h : l.reorder_prob ≤ 0) : maybe_reorder d l p = (l, some p) := by
  simp [maybe_reorder, h]

theorem maybe_reorder_hold (l : UnreliableLink) (p : Packet)
    (h : ¬ l.reorder_prob ≤ 0) (hb : l.reorder_buffer = none) :
    maybe_reorder true l p =
      ({ l with reorder_buffer := some p,
                packets_reordered := l.packets_reordered + 1 }, none) := by
  simp [maybe_reorder, h, hb]

theorem maybe_reorder_pass (l : UnreliableLink) (p : Packet)
    (h : ¬ l.reorder_prob ≤ 0) (hb : l.reorder_buffer = none) :
    maybe_reorder false l p = (l, some p) := by
  simp [maybe_reorder, h, hb]

theorem maybe_reorder_swapkeep (l : UnreliableLink) (p q : Packet)
    (h : ¬ l.reorder_prob ≤ 0) (hb : l.reorder_buffer = some q) :
    maybe_reorder true l p =
      ({ l with reorder_buffer := some p }, some q) := by
  simp [maybe_reorder, h, hb]

theorem maybe_reorder_release_drop (l : UnreliableLink) (p q : Packet)
    (h : ¬ l.reorder_prob ≤ 0) (hb : l.reorder_buffer = some q) :
    maybe_reorder false l p =
      ({ l with reorder_buffer := none }, some q) := by
  simp [maybe_reorder, h, hb]

theorem runReorder_cons (l : UnreliableLink) (d : Bool) (p : Packet)
    (rest : List (Bool × Packet)) :
    runReorder l ((d, p) :: rest) =
      ((runReorder (maybe_reorder d l p).1 rest).1,
       (maybe_reorder d l p).2 ::
         (runReorder (maybe_reorder d l p).1 rest).2.1,
       (if 0 < l.reorder_prob ∧ l.reorder_buffer ≠ none ∧ d = false
        then [p] else []) ++
         (runReorder (maybe_reorder d l p).1 rest).2.2) := rfl
/-- Conservation: the packets a link is asked to send (plus an initially held
packet) are, as a multiset, exactly the released packets plus the finally
held packet plus the silently discarded ones. -/
theorem runReorder_conservation (calls : List (Bool × Packet)) :
    ∀ l : UnreliableLink,
    (optList l.reorder_buffer ++ calls.map Prod.snd).Perm
      ((runReorder l calls).2.1.filterMap id ++
        optList (runReorder l calls).1.reorder_buffer ++
        (runReorder l calls).2.2) := by
  induction calls with
  | nil => intro l; simp [runReorder]
  | cons dp rest ih =>
    intro l
    obtain ⟨d, p⟩ := dp
    rw [List.perm_iff_count]
    intro a
    rw [runReorder_cons]
    by_cases hpr : l.reorder_prob ≤ 0
    · have h1 := (List.perm_iff_count.mp (ih l)) a
      rw [maybe_reorder_zero d l p hpr]
      have hlost : (if 0 < l.reorder_prob ∧ l.reorder_buffer ≠ none ∧ d = false
          then [p] else []) = ([] : List Packet) := by
        simp [not_lt.mpr hpr]
      rw [hlost]
      by_cases hap : a = p <;>
        simp [hap, List.count_append, List.count_cons, List.filterMap_cons,
          optList] at h1 ⊢ <;>
        omega
    · cases hbuf : l.reorder_buffer with
      | none =>
        cases d with
        | true =>
          rw [maybe_reorder_hold l p hpr hbuf]
          have h1 := (List.perm_iff_count.mp
            (ih { l with reorder_buffer := some p,
                         packets_reordered := l.packets_reordered + 1 })) a
          have hlost : (if 0 < l.reorder_prob ∧ (none : Option Packet) ≠ none ∧
              (true : Bool) = false then [p] else []) = ([] : List Packet) := by
            simp
          rw [hlost]
          by_cases hap : a = p <;>
            simp [hap, hbuf, List.count_append, List.count_cons,
              List.filterMap_cons, optList] at h1 ⊢ <;>
            omega
        | false =>
          rw [maybe_reorder_pass l p hpr hbuf]
          have h1 := (List.perm_iff_count.mp (ih l)) a
          have hlost : (if 0 < l.reorder_prob ∧ (none : Option Packet) ≠ none ∧
              (false : Bool) = false then [p] else []) = ([] : List Packet) := by
            simp
          rw [hlost]
          by_cases hap : a = p <;>
            simp [hap, hbuf, List.count_append, List.count_cons,
              List.filterMap_cons, optList] at h1 ⊢ <;>
            omega
      | some q =>
        cases d with
        | true =>
          rw [maybe_reorder_swapkeep l p q hpr hbuf]
          have h1 := (List.perm_iff_count.mp
            (ih { l with reorder_buffer := some p })) a
          have hlost : (if 0 < l.reorder_prob ∧ (some q : Option Packet) ≠ none ∧
              (true : Bool) = false then [p] else []) = ([] : List Packet) := by
            simp
          rw [hlost]
          by_cases hap : a = p <;> by_cases haq : a = q <;>
            simp [hap, haq, hbuf, List.count_append, List.count_cons,
              List.filterMap_cons, optList] at h1 ⊢ <;>
            omega
        | false =>
          rw [maybe_reorder_release_drop l p q hpr hbuf]
          have h1 := (List.perm_iff_count.mp
            (ih { l with reorder_buffer := none })) a
          have hlost : (if 0 < l.reorder_prob ∧ (some q : Option Packet) ≠ none ∧
              (false : Bool) = false then [p] else []) = [p] := by
            simp [not_le.mp hpr]
          rw [hlost]
          by_cases hap : a = p <;> by_cases haq : a = q <;>
            simp [hap, haq, hbuf, List.count_append, List.count_cons,
              List.filterMap_cons, optList] at h1 ⊢ <;>
            omega

/-- With the reorder buffer holding q and every draw succeeding (the
reorder_prob = 1 regime: random() < 1 always holds), each call releases the
previously held packet and holds the new one: the outputs are q followed by
all inputs but the last, in order, the last input stays held, and nothing is
discarded. -/
theorem runReorder_alltrue (ps : List Packet) :
    ∀ (l : UnreliableLink) (q : Packet), ¬ l.reorder_prob ≤ 0 →
    l.reorder_buffer = some q →
    (runReorder l (ps.map (fun p => (true, p)))).2.1 =
      ((q :: ps).dropLast).map some ∧
    (runReorder l (ps.map (fun p => (true, p)))).1.reorder_buffer =
      some (ps.getLastD q) ∧
    (runReorder l (ps.map (fun p => (true, p)))).2.2 = [] := by
  induction ps with
  | nil =>
    intro l q hpr hb
    simp [runReorder, hb]
  | cons p rest ih =>
    intro l q hpr hb
    have hstep := maybe_reorder_swapkeep l p q hpr hb
    have hrec := ih { l with reorder_buffer := some p } p hpr rfl
    simp only [List.map_cons, runReorder_cons, hstep]
    refine ⟨?_, ?_, ?_⟩
    · simp [hrec.1]
    · rw [hrec.2.1, List.getLastD_cons]
    · simp [hrec.2.2, hb]

/-- C3 amended: maybe_reorder loses a packet exactly when it is called with
the buffer occupied and the probability draw fails — the new packet is then
silently discarded while the held one is returned.  Conjunct 1
(conservation): over any call sequence, submitted packets = released packets
+ the finally held packet + the discarded ones, as multisets.  Conjunct 2:
with reorder_prob = 1 every draw succeeds, so no packet is ever discarded,
but no adjacent swap occurs either: starting from an empty buffer the
released sequence is exactly the submitted sequence without its last
element, in submission order (the first call releases nothing and the last
submitted packet remains held). -/
theorem c3_reorder_conservation_amended :
    (∀ (l : UnreliableLink) (calls : List (Bool × Packet)),
      (optList l.reorder_buffer ++ calls.map Prod.snd).Perm
        ((runReorder l calls).2.1.filterMap id ++
          optList (runReorder l calls).1.reorder_buffer ++
          (runReorder l calls).2.2)) ∧
    (∀ (l : UnreliableLink) (p0 : Packet) (ps : List Packet),
      0 < l.reorder_prob → l.reorder_buffer = none →
      (runReorder l ((p0 :: ps).map (fun p => (true, p)))).2.1 =
        none :: (((p0 :: ps).dropLast).map some) ∧
      (runReorder l ((p0 :: ps).map (fun p => (true, p)))).1.reorder_buffer =
        some (ps.getLastD p0) ∧
      (runReorder l ((p0 :: ps).map (fun p => (true, p)))).2.2 = []) := by
  constructor
  · intro l calls
    exact runReorder_conservation calls l
  · intro l p0 ps hpr hb
    have hstep := maybe_reorder_hold l p0 (not_le.mpr hpr) hb
    have hrec := runReorder_alltrue ps
      { l with reorder_buffer := some p0,
               packets_reordered := l.packets_reordered + 1 } p0
      (not_le.mpr hpr) rfl
    simp only [List.map_cons, runReorder_cons, hstep]
    refine ⟨?_, ?_, ?_⟩
    · simp [hrec.1]
    · simp [hrec.2.1]
    · simp [hrec.2.2, hb]

/-- C3 counterexample: with reorder_prob = 1/2, buffer initially empty, the
first call's draw succeeds (packet pA held, nothing released) and the second
call's draw fails: the code releases pA and empties the buffer, silently
discarding the new packet pB.  pB was submitted but is neither returned by
any call nor held in the buffer — maybe_reorder does lose packets. -/
theorem c3_reorder_drops_new_packet_counterexample :
    (runReorder (initLink 0 0 0 (1/2) 0)
        [(true, mkData 0 [1]), (false, mkData 1 [2])]).2.1 =
      [none, some (mkData 0 [1])] ∧
    (runReorder (initLink 0 0 0 (1/2) 0)
        [(true, mkData 0 [1]), (false, mkData 1 [2])]).1.reorder_buffer =
      none ∧
    (runReorder (initLink 0 0 0 (1/2) 0)
        [(true, mkData 0 [1]), (false, mkData 1 [2])]).2.2 =
      [mkData 1 [2]] := by
  refine ⟨?_, ?_, ?_⟩ <;>
    norm_num [runReorder, runReorder_cons, maybe_reorder, initLink] <;> simp

/-- C3 amended witness: conservation and the all-draws-succeed behaviour at a
concrete link (reorder_prob = 1) and packets. -/
theorem c3_reorder_conservation_amended_witness :
    (optList (initLink 0 0 0 1 0).reorder_buffer ++
        ([(true, mkData 0 [1]), (true, mkData 1 [2])].map Prod.snd)).Perm
      ((runReorder (initLink 0 0 0 1 0)
          [(true, mkData 0 [1]), (true, mkData 1 [2])]).2.1.filterMap id ++
        optList (runReorder (initLink 0 0 0 1 0)
          [(true, mkData 0 [1]), (true, mkData 1 [2])]).1.reorder_buffer ++
        (runReorder (initLink 0 0 0 1 0)
          [(true, mkData 0 [1]), (true, mkData 1 [2])]).2.2) ∧
    (runReorder (initLink 0 0 0 1 0)
        [(true, mkData 0 [1]), (true, mkData 1 [2])]).2.1 =
      none :: (([mkData 0 [1], mkData 1 [2]].dropLast).map some) := by
  constructor
  · exact c3_reorder_conservation_amended.1 (initLink 0 0 0 1 0)
      [(true, mkData 0 [1]), (true, mkData 1 [2])]
  · exact (c3_reorder_conservation_amended.2 (initLink 0 0 0 1 0)
      (mkData 0 [1]) [mkData 1 [2]] (by norm_num [initLink]) rfl).1

/-! ### Claim C9: cwnd and ssthresh bounds over all reachable states -/

/-- States of one endpoint reachable from the default initial congestion
values (cwnd_init = 1, ssthresh_init = 65535) with a validated configuration
(nonnegative additive-increase factor) through send_data, on_receive (with
arbitrary incoming packets), timer fires, and recv_app_data. -/
inductive EReach : TCPishEndpoint → Prop where
  | init (r : ℤ) (a b k ai md : ℚ) (ecc : Bool) (hai : 0 ≤ ai) :
      EReach (initEndpoint r a b k ecc 65535 1 ai md)
  | send (e : TCPishEndpoint) (now : ℚ) (data : List ℕ) :
      EReach e → EReach (send_data e now data).st
  | recv (e : TCPishEndpoint) (now : ℚ) (p : Packet) :
      EReach e → EReach (on_receive e now p).st
  | fire (e : TCPishEndpoint) (now : ℚ) :
      EReach e → EReach (timeout_fire e now).st
  | pop (e : TCPishEndpoint) :
      EReach e → EReach (recv_app_data e).1

/-- The congestion invariant together with the configuration fact that keeps
it inductive. -/
def EInv (e : TCPishEndpoint) : Prop :=
  0 ≤ e.ai_factor ∧ 1 ≤ e.cwnd ∧ 2 ≤ e.ssthresh

theorem EInv_send (e : TCPishEndpoint) (now : ℚ) (data : List ℕ)
    (h : EInv e) : EInv (send_data e now data).st := by
  by_cases hc : (e.nextseq : ℚ) <
      (e.base : ℚ) + (if e.enable_congestion_control then e.cwnd else (e.window : ℚ))
  · rw [send_data_accept e now data hc]
    exact h
  · rw [send_data_reject e now data hc]
    exact h

theorem EInv_fire (e : TCPishEndpoint) (now : ℚ)
    (h : EInv e) : EInv (timeout_fire e now).st := by
  rcases hsb : e.sent e.base with _ | pkt
  · rw [timeout_none e now hsb]
    exact h
  · rw [timeout_some e now pkt hsb]
    obtain ⟨hai, hcw, hss⟩ := h
    refine ⟨hai, ?_, ?_⟩ <;> dsimp only <;> split
    · norm_num
    · exact hcw
    · exact le_max_left 2 _
    · exact hss

theorem EInv_recv (e : TCPishEndpoint) (now : ℚ) (p : Packet)
    (h : EInv e) : EInv (on_receive e now p).st := by
  obtain ⟨hai, hcw, hss⟩ := h
  by_cases hD : p.ptype = "DATA"
  · rw [on_receive_data_eq e now p hD]
    by_cases hacc : (p.seq.getD 0 : ℤ) = e.last_acked + 1
    · rw [data_accept e p hacc]
      refine ⟨hai, ?_, hss⟩
      dsimp only
      split
      · linarith
      · split
        · have hpos : (0 : ℚ) < e.cwnd := lt_of_lt_of_le one_pos hcw
          have : 0 ≤ e.ai_factor / e.cwnd := div_nonneg hai (le_of_lt hpos)
          linarith
        · exact hcw
    · rw [data_reject e p hacc]
      exact ⟨hai, hcw, hss⟩
  · by_cases hA : p.ptype = "ACK"
    · have hsplit : on_receive e now p =
          if (e.base : ℤ) ≤ p.ack.getD 0 then on_receive_newack e now (p.ack.getD 0)
          else on_receive_oldack e now (p.ack.getD 0) := by
        simp only [on_receive, if_neg hD, if_pos hA]
      rw [hsplit]
      by_cases hle : (e.base : ℤ) ≤ p.ack.getD 0
      · rw [if_pos hle]
        have hf := newack_fields e now (p.ack.getD 0)
        exact ⟨hf.2.2.2.2.2.2.2.1 ▸ hai, hf.2.2.2.2.2.1 ▸ hcw, hf.2.2.2.2.2.2.1 ▸ hss⟩
      · rw [if_neg hle]
        by_cases hd : p.ack.getD 0 = e.last_acked
        · by_cases h3 : 3 ≤ e.dup_count + 1
          · rcases hsb : e.sent e.base with _ | pkt
            · rw [oldack_dup_nosent e now _ hd h3 hsb]
              exact ⟨hai, hcw, hss⟩
            · rw [oldack_fast e now _ pkt hd h3 hsb]
              refine ⟨hai, ?_, ?_⟩ <;> dsimp only <;> split
              · have h2 : (2 : ℤ) ≤ max 2 (pyInt (e.cwnd * e.md_factor)) :=
                  le_max_left 2 _
                have h2q : (2 : ℚ) ≤ ((max 2 (pyInt (e.cwnd * e.md_factor)) : ℤ) : ℚ) := by
                  exact_mod_cast h2
                linarith
              · exact hcw
              · exact le_max_left 2 _
              · exact hss
          · rw [oldack_dup_low e now _ hd h3]
            exact ⟨hai, hcw, hss⟩
        · rw [oldack_other e now _ hd]
          exact ⟨hai, hcw, hss⟩
    · rw [on_receive_other e now p hD hA]
      exact ⟨hai, hcw, hss⟩

theorem EInv_pop (e : TCPishEndpoint) (h : EInv e) : EInv (recv_app_data e).1 := by
  rcases hrx : e.app_rx with _ | ⟨x, rest⟩ <;> simp [recv_app_data, hrx] <;> exact h

theorem EReach_inv (e : TCPishEndpoint) (h : EReach e) : EInv e := by
  induction h with
  | init r a b k ai md ecc hai =>
    exact ⟨hai, by norm_num [initEndpoint], by norm_num [initEndpoint]⟩
  | send e now data _ ih => exact EInv_send e now data ih
  | recv e now p _ ih => exact EInv_recv e now p ih
  | fire e now _ ih => exact EInv_fire e now ih
  | pop e _ ih => exact EInv_pop e ih

/-- C9: for an endpoint constructed with the default initial congestion
values (cwnd_init = 1, ssthresh_init = 65535) and a validated configuration
(ai_factor ≥ 0), every state reachable through send_data, on_receive and
timer fires satisfies cwnd ≥ 1 and ssthresh ≥ 2. -/
theorem c9_congestion_invariant (e : TCPishEndpoint) (h : EReach e) :
    1 ≤ e.cwnd ∧ 2 ≤ e.ssthresh :=
  ⟨(EReach_inv e h).2.1, (EReach_inv e h).2.2⟩

/-- C9 witness: the default-parameter initial endpoint is reachable and
satisfies the invariant. -/
theorem c9_congestion_invariant_witness :
    1 ≤ (initEndpoint 200 (1/8) (1/4) 4 true 65535 1 1 (1/2)).cwnd ∧
    2 ≤ (initEndpoint 200 (1/8) (1/4) 4 true 65535 1 1 (1/2)).ssthresh :=
  c9_congestion_invariant _
    (EReach.init 200 (1/8) (1/4) 4 1 (1/2) true (by norm_num))

/-! ### Claim C2: the sender-window bookkeeping invariant -/

/-- Per-endpoint bookkeeping: base never passes nextseq, and the `sent` map
holds a DATA packet with matching seq for every key below nextseq and
nothing at or above it (acknowledged entries are never deleted by the code,
so the keys run from 0, not from base). -/
def EpSentInv (e : TCPishEndpoint) : Prop :=
  e.base ≤ e.nextseq ∧
  (∀ i, i < e.nextseq →
    ∃ pkt, e.sent i = some pkt ∧ pkt.ptype = "DATA" ∧ pkt.seq = some i) ∧
  (∀ i, e.nextseq ≤ i → e.sent i = none)

/-- Packets pending on a link, relative to their originating endpoint:
DATA sequence numbers are below the origin's nextseq, ACK values never
exceed the origin's current cumulative last_acked. -/
def FlightInv (fl : List Packet) (origin : TCPishEndpoint) : Prop :=
  ∀ p ∈ fl,
    (p.ptype = "DATA" → ∃ i, p.seq = some i ∧ i < origin.nextseq) ∧
    (p.ptype = "ACK" → ∃ a, p.ack = some a ∧ a ≤ origin.last_acked)

/-- The global invariant of the wired two-endpoint system. -/
def SysInv (w : Sys) : Prop :=
  EpSentInv w.epA ∧ EpSentInv w.epB ∧
  FlightInv w.flightAB w.epA ∧ FlightInv w.flightBA w.epB ∧
  w.epA.last_acked < (w.epB.nextseq : ℤ) ∧
  w.epB.last_acked < (w.epA.nextseq : ℤ)

theorem EpSentInv_of_fields (s s' : TCPishEndpoint)
    (hb : s'.base = s.base) (hn : s'.nextseq = s.nextseq)
    (hs : s'.sent = s.sent) (h : EpSentInv s) : EpSentInv s' := by
  unfold EpSentInv at *
  rw [hb, hn, hs]
  exact h

theorem FlightInv_erase (fl : List Packet) (origin : TCPishEndpoint)
    (p : Packet) (h : FlightInv fl origin) : FlightInv (fl.erase p) origin :=
  fun q hq => h q (List.mem_of_mem_erase hq)

theorem FlightInv_mono (fl : List Packet) (s s' : TCPishEndpoint)
    (h : FlightInv fl s) (hn : s.nextseq ≤ s'.nextseq)
    (hl : s.last_acked ≤ s'.last_acked) : FlightInv fl s' := by
  intro p hp
  refine ⟨fun hD => ?_, fun hA => ?_⟩
  · obtain ⟨i, h1, h2⟩ := (h p hp).1 hD
    exact ⟨i, h1, lt_of_lt_of_le h2 hn⟩
  · obtain ⟨a, h1, h2⟩ := (h p hp).2 hA
    exact ⟨a, h1, le_trans h2 hl⟩

theorem FlightInv_append (fl fl' : List Packet) (origin : TCPishEndpoint)
    (h : FlightInv fl origin) (h' : FlightInv fl' origin) :
    FlightInv (fl ++ fl') origin := by
  intro p hp
  rcases List.mem_append.mp hp with hm | hm
  · exact h p hm
  · exact h' p hm

theorem FlightInv_nil (origin : TCPishEndpoint) : FlightInv [] origin := by
  intro p hp
  simp at hp

/-- Everything the system invariant needs to know about one on_receive run
at the receiving endpoint. -/
theorem on_receive_sys (s : TCPishEndpoint) (now : ℚ) (p : Packet)
    (h : EpSentInv s)
    (hack : p.ptype = "ACK" → p.ack.getD 0 < (s.nextseq : ℤ)) :
    EpSentInv (on_receive s now p).st ∧
    (on_receive s now p).st.nextseq = s.nextseq ∧
    (on_receive s now p).st.sent = s.sent ∧
    ((on_receive s now p).st.last_acked = s.last_acked ∨
      (p.ptype = "DATA" ∧
        (on_receive s now p).st.last_acked = (p.seq.getD 0 : ℤ))) ∧
    s.last_acked ≤ (on_receive s now p).st.last_acked ∧
    (∀ q, (on_receive s now p).out = some q →
      (q.ptype = "DATA" ∧ ∃ i, q.seq = some i ∧ i < s.nextseq) ∨
      (q.ptype = "ACK" ∧
        q.ack = some ((on_receive s now p).st.last_acked))) := by
  obtain ⟨hb, hin, hout⟩ := h
  by_cases hD : p.ptype = "DATA"
  · rw [on_receive_data_eq s now p hD]
    by_cases hacc : (p.seq.getD 0 : ℤ) = s.last_acked + 1
    · rw [data_accept s p hacc]
      refine ⟨?_, rfl, rfl, ?_, by dsimp only; linarith, ?_⟩
      · exact EpSentInv_of_fields _ s rfl rfl rfl ⟨hb, hin, hout⟩
      · right
        exact ⟨hD, by dsimp only; linarith⟩
      · intro q hq
        right
        dsimp only at hq ⊢
        cases hq
        exact ⟨rfl, rfl⟩
    · rw [data_reject s p hacc]
      refine ⟨⟨hb, hin, hout⟩, rfl, rfl, Or.inl rfl, le_refl _, ?_⟩
      intro q hq
      right
      dsimp only at hq ⊢
      cases hq
      exact ⟨rfl, rfl⟩
  · by_cases hA : p.ptype = "ACK"
    · have hsplit : on_receive s now p =
          if (s.base : ℤ) ≤ p.ack.getD 0
          then on_receive_newack s now (p.ack.getD 0)
          else on_receive_oldack s now (p.ack.getD 0) := by
        simp only [on_receive, if_neg hD, if_pos hA]
      rw [hsplit]
      by_cases hle : (s.base : ℤ) ≤ p.ack.getD 0
      · rw [if_pos hle]
        have hf := newack_fields s now (p.ack.getD 0)
        refine ⟨?_, hf.2.1, hf.2.2.1, Or.inl hf.2.2.2.1, le_of_eq hf.2.2.2.1.symm, ?_⟩
        · refine EpSentInv_of_fields
            { s with base := (p.ack.getD 0 + 1).toNat } _ ?_ ?_ ?_ ?_
          · rw [hf.1]
          · rw [hf.2.1]
          · rw [hf.2.2.1]
          · refine ⟨?_, hin, hout⟩
            dsimp only
            exact Int.toNat_le.mpr (by exact_mod_cast hack hA)
        · intro q hq
          rw [hf.2.2.2.2.2.2.2.2.2.2.2] at hq
          cases hq
      · rw [if_neg hle]
        by_cases hd : p.ack.getD 0 = s.last_acked
        · by_cases h3 : 3 ≤ s.dup_count + 1
          · rcases hsb : s.sent s.base with _ | pkt
            · rw [oldack_dup_nosent s now _ hd h3 hsb]
              exact ⟨EpSentInv_of_fields _ s rfl rfl rfl ⟨hb, hin, hout⟩,
                rfl, rfl, Or.inl rfl, le_refl _, fun q hq => by cases hq⟩
            · rw [oldack_fast s now _ pkt hd h3 hsb]
              have hblt : s.base < s.nextseq := by
                by_contra hge
                push_neg at hge
                rw [hout s.base hge] at hsb
                cases hsb
              obtain ⟨pkt', hp1, hp2, hp3⟩ := hin s.base hblt
              rw [hsb] at hp1
              cases hp1
              refine ⟨EpSentInv_of_fields _ s rfl rfl rfl ⟨hb, hin, hout⟩,
                rfl, rfl, Or.inl rfl, le_refl _, ?_⟩
              intro q hq
              dsimp only at hq
              cases hq
              exact Or.inl ⟨hp2, s.base, hp3, hblt⟩
          · rw [oldack_dup_low s now _ hd h3]
            exact ⟨EpSentInv_of_fields _ s rfl rfl rfl ⟨hb, hin, hout⟩,
              rfl, rfl, Or.inl rfl, le_refl _, fun q hq => by cases hq⟩
        · rw [oldack_other s now _ hd]
          exact ⟨⟨hb, hin, hout⟩, rfl, rfl, Or.inl rfl, le_refl _,
            fun q hq => by cases hq⟩
    · rw [on_receive_other s now p hD hA]
      exact ⟨⟨hb, hin, hout⟩, rfl, rfl, Or.inl rfl, le_refl _,
        fun q hq => by cases hq⟩

theorem timeout_sys (s : TCPishEndpoint) (now : ℚ) (h : EpSentInv s) :
    EpSentInv (timeout_fire s now).st ∧
    (timeout_fire s now).st.nextseq = s.nextseq ∧
    (timeout_fire s now).st.last_acked = s.last_acked ∧
    (∀ q, (timeout_fire s now).out = some q →
      q.ptype = "DATA" ∧ ∃ i, q.seq = some i ∧ i < s.nextseq) := by
  obtain ⟨hb, hin, hout⟩ := h
  rcases hsb : s.sent s.base with _ | pkt
  · rw [timeout_none s now hsb]
    exact ⟨EpSentInv_of_fields _ s rfl rfl rfl ⟨hb, hin, hout⟩, rfl, rfl,
      fun q hq => by cases hq⟩
  · rw [timeout_some s now pkt hsb]
    have hblt : s.base < s.nextseq := by
      by_contra hge
      push_neg at hge
      rw [hout s.base hge] at hsb
      cases hsb
    obtain ⟨pkt', hp1, hp2, hp3⟩ := hin s.base hblt
    rw [hsb] at hp1
    cases hp1
    refine ⟨EpSentInv_of_fields _ s rfl rfl rfl ⟨hb, hin, hout⟩, rfl, rfl, ?_⟩
    intro q hq
    dsimp only at hq
    cases hq
    exact ⟨hp2, s.base, hp3, hblt⟩

theorem send_sys (s : TCPishEndpoint) (now : ℚ) (data : List ℕ)
    (h : EpSentInv s) :
    EpSentInv (send_data s now data).st ∧
    s.nextseq ≤ (send_data s now data).st.nextseq ∧
    (send_data s now data).st.last_acked = s.last_acked ∧
    (∀ q, (send_data s now data).out = some q →
      q.ptype = "DATA" ∧
        ∃ i, q.seq = some i ∧ i < (send_data s now data).st.nextseq) := by
  obtain ⟨hb, hin, hout⟩ := h
  by_cases hc : (s.nextseq : ℚ) <
      (s.base : ℚ) + (if s.enable_congestion_control then s.cwnd else (s.window : ℚ))
  · rw [send_data_accept s now data hc]
    refine ⟨⟨by dsimp only; omega, ?_, ?_⟩, by dsimp only; omega, rfl, ?_⟩
    · intro i hi
      dsimp only at hi ⊢
      by_cases hieq : i = s.nextseq
      · refine ⟨mkData s.nextseq data, ?_, rfl, ?_⟩
        · simp [upd, hieq]
        · simp [mkData, hieq]
      · obtain ⟨pkt, h1, h2, h3⟩ := hin i (by omega)
        exact ⟨pkt, by simp [upd, hieq, h1], h2, h3⟩
    · intro i hi
      dsimp only at hi ⊢
      have hieq : i ≠ s.nextseq := by omega
      simp [upd, hieq, hout i (by omega)]
    · intro q hq
      dsimp only at hq
      cases hq
      exact ⟨rfl, s.nextseq, rfl, by dsimp only; omega⟩
  · rw [send_data_reject s now data hc]
    exact ⟨⟨hb, hin, hout⟩, le_refl _, rfl, fun q hq => by cases hq⟩

theorem pop_sys (s : TCPishEndpoint) :
    (recv_app_data s).1.nextseq = s.nextseq ∧
    (recv_app_data s).1.base = s.base ∧
    (recv_app_data s).1.sent = s.sent ∧
    (recv_app_data s).1.last_acked = s.last_acked := by
  rcases hrx : s.app_rx with _ | ⟨x, rest⟩ <;> simp [recv_app_data, hrx]

/-- The system invariant holds in every reachable state. -/
theorem SysReach_inv (w : Sys) (h : SysReach w) : SysInv w := by
  induction h with
  | init r1 r2 a1 b1 k1 ai1 md1 c1 a2 b2 k2 ai2 md2 c2 e1 e2 t1 t2 =>
    refine ⟨⟨le_refl 0, ?_, ?_⟩, ⟨le_refl 0, ?_, ?_⟩, FlightInv_nil _,
      FlightInv_nil _, ?_, ?_⟩ <;>
      simp [initEndpoint]
  | sendA w now data kept _ ih =>
    obtain ⟨hA, hB, hfAB, hfBA, hlab, hlba⟩ := ih
    have hs := send_sys w.epA now data hA
    refine ⟨hs.1, hB, ?_, ?_, ?_, ?_⟩
    · unfold sysSendA
      dsimp only
      have hold : FlightInv w.flightAB (send_data w.epA now data).st :=
        FlightInv_mono _ _ _ hfAB hs.2.1 (le_of_eq hs.2.2.1.symm)
      split
      · refine FlightInv_append _ _ _ hold ?_
        intro q hq
        rcases ho : (send_data w.epA now data).out with _ | q'
        · rw [ho] at hq; cases hq
        · rw [ho] at hq
          simp [Option.toList] at hq
          subst hq
          obtain ⟨hq1, i, hq2, hq3⟩ := hs.2.2.2 q ho
          exact ⟨fun _ => ⟨i, hq2, hq3⟩,
            fun hAck => absurd (hq1.symm.trans hAck) (by decide)⟩
      · exact hold
    · exact FlightInv_mono _ _ _ hfBA (le_refl _) (le_refl _)
    · unfold sysSendA
      dsimp only
      rw [hs.2.2.1]
      exact hlab
    · unfold sysSendA
      dsimp only
      exact lt_of_lt_of_le hlba (by exact_mod_cast hs.2.1)
  | sendB w now data kept _ ih =>
    obtain ⟨hA, hB, hfAB, hfBA, hlab, hlba⟩ := ih
    have hs := send_sys w.epB now data hB
    refine ⟨hA, hs.1, ?_, ?_, ?_, ?_⟩
    · exact FlightInv_mono _ _ _ hfAB (le_refl _) (le_refl _)
    · unfold sysSendB
      dsimp only
      have hold : FlightInv w.flightBA (send_data w.epB now data).st :=
        FlightInv_mono _ _ _ hfBA hs.2.1 (le_of_eq hs.2.2.1.symm)
      split
      · refine FlightInv_append _ _ _ hold ?_
        intro q hq
        rcases ho : (send_data w.epB now data).out with _ | q'
        · rw [ho] at hq; cases hq
        · rw [ho] at hq
          simp [Option.toList] at hq
          subst hq
          obtain ⟨hq1, i, hq2, hq3⟩ := hs.2.2.2 q ho
          exact ⟨fun _ => ⟨i, hq2, hq3⟩,
            fun hAck => absurd (hq1.symm.trans hAck) (by decide)⟩
      · exact hold
    · unfold sysSendB
      dsimp only
      exact lt_of_lt_of_le hlab (by exact_mod_cast hs.2.1)
    · unfold sysSendB
      dsimp only
      rw [hs.2.2.1]
      exact hlba
  | deliverAB w now p kept hw hmem ih =>
    obtain ⟨hA, hB, hfAB, hfBA, hlab, hlba⟩ := ih
    have hack : p.ptype = "ACK" → p.ack.getD 0 < (w.epB.nextseq : ℤ) := by
      intro hAck
      obtain ⟨a, ha1, ha2⟩ := (hfAB p hmem).2 hAck
      rw [ha1]
      exact lt_of_le_of_lt ha2 hlab
    have hr := on_receive_sys w.epB now p hB hack
    refine ⟨hA, hr.1, ?_, ?_, ?_, ?_⟩
    · unfold sysDeliverAB
      dsimp only
      exact FlightInv_erase _ _ _ hfAB
    · unfold sysDeliverAB
      dsimp only
      have hold : FlightInv w.flightBA (on_receive w.epB now p).st :=
        FlightInv_mono _ _ _ hfBA (le_of_eq hr.2.1.symm) hr.2.2.2.2.1
      split
      · refine FlightInv_append _ _ _ hold ?_
        intro q hq
        rcases ho : (on_receive w.epB now p).out with _ | q'
        · rw [ho] at hq; cases hq
        · rw [ho] at hq
          simp [Option.toList] at hq
          subst hq
          rcases hr.2.2.2.2.2 q ho with ⟨hd, i, h1, h2⟩ | ⟨hAck, h1⟩
          · refine ⟨fun _ => ⟨i, h1, ?_⟩,
              fun hAck => absurd (hd.symm.trans hAck) (by decide)⟩
            rw [hr.2.1]
            exact h2
          · exact ⟨fun hD => absurd (hAck.symm.trans hD) (by decide),
              fun _ => ⟨(on_receive w.epB now p).st.last_acked, h1, le_refl _⟩⟩
      · exact hold
    · unfold sysDeliverAB
      dsimp only
      rw [hr.2.1]
      exact hlab
    · unfold sysDeliverAB
      dsimp only
      rcases hr.2.2.2.1 with heq | ⟨hdp, heq⟩
      · rw [heq]
        exact hlba
      · rw [heq]
        obtain ⟨i, h1, h2⟩ := (hfAB p hmem).1 hdp
        rw [h1]
        exact_mod_cast h2
  | deliverBA w now p kept hw hmem ih =>
    obtain ⟨hA, hB, hfAB, hfBA, hlab, hlba⟩ := ih
    have hack : p.ptype = "ACK" → p.ack.getD 0 < (w.epA.nextseq : ℤ) := by
      intro hAck
      obtain ⟨a, ha1, ha2⟩ := (hfBA p hmem).2 hAck
      rw [ha1]
      exact lt_of_le_of_lt ha2 hlba
    have hr := on_receive_sys w.epA now p hA hack
    refine ⟨hr.1, hB, ?_, ?_, ?_, ?_⟩
    · unfold sysDeliverBA
      dsimp only
      have hold : FlightInv w.flightAB (on_receive w.epA now p).st :=
        FlightInv_mono _ _ _ hfAB (le_of_eq hr.2.1.symm) hr.2.2.2.2.1
      split
      · refine FlightInv_append _ _ _ hold ?_
        intro q hq
        rcases ho : (on_receive w.epA now p).out with _ | q'
        · rw [ho] at hq; cases hq
        · rw [ho] at hq
          simp [Option.toList] at hq
          subst hq
          rcases hr.2.2.2.2.2 q ho with ⟨hd, i, h1, h2⟩ | ⟨hAck, h1⟩
          · refine ⟨fun _ => ⟨i, h1, ?_⟩,
              fun hAck => absurd (hd.symm.trans hAck) (by decide)⟩
            rw [hr.2.1]
            exact h2
          · exact ⟨fun hD => absurd (hAck.symm.trans hD) (by decide),
              fun _ => ⟨(on_receive w.epA now p).st.last_acked, h1, le_refl _⟩⟩
      · exact hold
    · unfold sysDeliverBA
      dsimp only
      exact FlightInv_erase _ _ _ hfBA
    · unfold sysDeliverBA
      dsimp only
      rcases hr.2.2.2.1 with heq | ⟨hdp, heq⟩
      · rw [heq]
        exact hlab
      · rw [heq]
        obtain ⟨i, h1, h2⟩ := (hfBA p hmem).1 hdp
        rw [h1]
        exact_mod_cast h2
    · unfold sysDeliverBA
      dsimp only
      rw [hr.2.1]
      exact hlba
  | fireA w now kept _ ih =>
    obtain ⟨hA, hB, hfAB, hfBA, hlab, hlba⟩ := ih
    have ht := timeout_sys w.epA now hA
    refine ⟨ht.1, hB, ?_, FlightInv_mono _ _ _ hfBA (le_refl _) (le_refl _), ?_, ?_⟩
    · unfold sysTimeoutA
      dsimp only
      have hold : FlightInv w.flightAB (timeout_fire w.epA now).st :=
        FlightInv_mono _ _ _ hfAB (le_of_eq ht.2.1.symm) (le_of_eq ht.2.2.1.symm)
      split
      · refine FlightInv_append _ _ _ hold ?_
        intro q hq
        rcases ho : (timeout_fire w.epA now).out with _ | q'
        · rw [ho] at hq; cases hq
        · rw [ho] at hq
          simp [Option.toList] at hq
          subst hq
          obtain ⟨hd, i, h1, h2⟩ := ht.2.2.2 q ho
          refine ⟨fun _ => ⟨i, h1, ?_⟩,
            fun hAck => absurd (hd.symm.trans hAck) (by decide)⟩
          rw [ht.2.1]
          exact h2
      · exact hold
    · unfold sysTimeoutA
      dsimp only
      rw [ht.2.2.1]
      exact hlab
    · unfold sysTimeoutA
      dsimp only
      rw [ht.2.1]
      exact hlba
  | fireB w now kept _ ih =>
    obtain ⟨hA, hB, hfAB, hfBA, hlab, hlba⟩ := ih
    have ht := timeout_sys w.epB now hB
    refine ⟨hA, ht.1, FlightInv_mono _ _ _ hfAB (le_refl _) (le_refl _), ?_, ?_, ?_⟩
    · unfold sysTimeoutB
      dsimp only
      have hold : FlightInv w.flightBA (timeout_fire w.epB now).st :=
        FlightInv_mono _ _ _ hfBA (le_of_eq ht.2.1.symm) (le_of_eq ht.2.2.1.symm)
      split
      · refine FlightInv_append _ _ _ hold ?_
        intro q hq
        rcases ho : (timeout_fire w.epB now).out with _ | q'
        · rw [ho] at hq; cases hq
        · rw [ho] at hq
          simp [Option.toList] at hq
          subst hq
          obtain ⟨hd, i, h1, h2⟩ := ht.2.2.2 q ho
          refine ⟨fun _ => ⟨i, h1, ?_⟩,
            fun hAck => absurd (hd.symm.trans hAck) (by decide)⟩
          rw [ht.2.1]
          exact h2
      · exact hold
    · unfold sysTimeoutB
      dsimp only
      rw [ht.2.1]
      exact hlab
    · unfold sysTimeoutB
      dsimp only
      rw [ht.2.2.1]
      exact hlba
  | recvA w _ ih =>
    obtain ⟨hA, hB, hfAB, hfBA, hlab, hlba⟩ := ih
    have hp := pop_sys w.epA
    refine ⟨EpSentInv_of_fields w.epA _ hp.2.1 hp.1 hp.2.2.1 hA, hB,
      FlightInv_mono _ _ _ hfAB (le_of_eq hp.1.symm) (le_of_eq hp.2.2.2.symm),
      FlightInv_mono _ _ _ hfBA (le_refl _) (le_refl _), ?_, ?_⟩
    · unfold sysRecvA
      dsimp only
      rw [hp.2.2.2]
      exact hlab
    · unfold sysRecvA
      dsimp only
      rw [hp.1]
      exact hlba
  | recvB w _ ih =>
    obtain ⟨hA, hB, hfAB, hfBA, hlab, hlba⟩ := ih
    have hp := pop_sys w.epB
    refine ⟨hA, EpSentInv_of_fields w.epB _ hp.2.1 hp.1 hp.2.2.1 hB,
      FlightInv_mono _ _ _ hfAB (le_refl _) (le_refl _),
      FlightInv_mono _ _ _ hfBA (le_of_eq hp.1.symm) (le_of_eq hp.2.2.2.symm),
      ?_, ?_⟩
    · unfold sysRecvB
      dsimp only
      rw [hp.1]
      exact hlab
    · unfold sysRecvB
      dsimp only
      rw [hp.2.2.2]
      exact hlba
  | corruptSentA w i pl c cor _ ih =>
    obtain ⟨hA, hB, hfAB, hfBA, hlab, hlba⟩ := ih
    obtain ⟨hb, hin, hout⟩ := hA
    refine ⟨⟨hb, ?_, ?_⟩, hB,
      FlightInv_mono _ _ _ hfAB (le_refl _) (le_refl _),
      FlightInv_mono _ _ _ hfBA (le_refl _) (le_refl _), hlab, hlba⟩
    · intro j hj
      simp only [sysCorruptSentA] at hj ⊢
      obtain ⟨pkt, h1, h2, h3⟩ := hin j hj
      by_cases hji : j = i
      · subst hji
        exact ⟨mutatePkt pkt pl c cor, by simp [h1], h2, h3⟩
      · exact ⟨pkt, by simp [hji, h1], h2, h3⟩
    · intro j hj
      simp only [sysCorruptSentA] at hj ⊢
      by_cases hji : j = i
      · subst hji
        simp [hout j hj]
      · simp [hji, hout j hj]
  | corruptSentB w i pl c cor _ ih =>
    obtain ⟨hA, hB, hfAB, hfBA, hlab, hlba⟩ := ih
    obtain ⟨hb, hin, hout⟩ := hB
    refine ⟨hA, ⟨hb, ?_, ?_⟩,
      FlightInv_mono _ _ _ hfAB (le_refl _) (le_refl _),
      FlightInv_mono _ _ _ hfBA (le_refl _) (le_refl _), hlab, hlba⟩
    · intro j hj
      simp only [sysCorruptSentB] at hj ⊢
      obtain ⟨pkt, h1, h2, h3⟩ := hin j hj
      by_cases hji : j = i
      · subst hji
        exact ⟨mutatePkt pkt pl c cor, by simp [h1], h2, h3⟩
      · exact ⟨pkt, by simp [hji, h1], h2, h3⟩
    · intro j hj
      simp only [sysCorruptSentB] at hj ⊢
      by_cases hji : j = i
      · subst hji
        simp [hout j hj]
      · simp [hji, hout j hj]
  | mutateAB w p pl c cor _ hmem ih =>
    obtain ⟨hA, hB, hfAB, hfBA, hlab, hlba⟩ := ih
    refine ⟨hA, hB, ?_, hfBA, hlab, hlba⟩
    intro q hq
    rcases List.mem_cons.mp hq with hq | hq
    · subst hq
      have horig := hfAB p hmem
      refine ⟨fun hD => ?_, fun hAck => ?_⟩
      · obtain ⟨i, h1, h2⟩ := horig.1 (by simpa [mutatePkt] using hD)
        exact ⟨i, by simpa [mutatePkt] using h1, h2⟩
      · obtain ⟨a, h1, h2⟩ := horig.2 (by simpa [mutatePkt] using hAck)
        exact ⟨a, by simpa [mutatePkt] using h1, h2⟩
    · exact hfAB q (List.mem_of_mem_erase hq)
  | mutateBA w p pl c cor _ hmem ih =>
    obtain ⟨hA, hB, hfAB, hfBA, hlab, hlba⟩ := ih
    refine ⟨hA, hB, hfAB, ?_, hlab, hlba⟩
    intro q hq
    rcases List.mem_cons.mp hq with hq | hq
    · subst hq
      have horig := hfBA p hmem
      refine ⟨fun hD => ?_, fun hAck => ?_⟩
      · obtain ⟨i, h1, h2⟩ := horig.1 (by simpa [mutatePkt] using hD)
        exact ⟨i, by simpa [mutatePkt] using h1, h2⟩
      · obtain ⟨a, h1, h2⟩ := horig.2 (by simpa [mutatePkt] using hAck)
        exact ⟨a, by simpa [mutatePkt] using h1, h2⟩
    · exact hfBA q (List.mem_of_mem_erase hq)

theorem EpSentInv_keys (e : TCPishEndpoint) (h : EpSentInv e) :
    e.base ≤ e.nextseq ∧
    ∀ i, (e.sent i).isSome = true ↔ i < e.nextseq := by
  obtain ⟨hb, hin, hout⟩ := h
  refine ⟨hb, fun i => ⟨fun hs => ?_, fun hi => ?_⟩⟩
  · by_contra hge
    push_neg at hge
    rw [hout i hge] at hs
    cases hs
  · obtain ⟨pkt, h1, _, _⟩ := hin i hi
    rw [h1]
    rfl

/-- C2 amended: in every reachable state of the wired two-endpoint system,
each endpoint satisfies 0 ≤ base ≤ nextseq, and the sent mapping has keys
exactly {0, …, nextseq−1} — one entry per assigned sequence number and none
at or above nextseq.  The keys do not start at base as the claim states:
acknowledged entries below base are never deleted by the code. -/
theorem c2_sent_keys_amended (w : Sys) (h : SysReach w) :
    (w.epA.base ≤ w.epA.nextseq ∧
      ∀ i, (w.epA.sent i).isSome = true ↔ i < w.epA.nextseq) ∧
    (w.epB.base ≤ w.epB.nextseq ∧
      ∀ i, (w.epB.sent i).isSome = true ↔ i < w.epB.nextseq) := by
  obtain ⟨hA, hB, _, _, _, _⟩ := SysReach_inv w h
  exact ⟨EpSentInv_keys _ hA, EpSentInv_keys _ hB⟩

/-- The freshly constructed system with all-default endpoints. -/
def c2sys0 : Sys :=
  { epA := initEndpoint 200 (1/8) (1/4) 4 true 65535 1 1 (1/2),
    epB := initEndpoint 200 (1/8) (1/4) 4 true 65535 1 1 (1/2),
    flightAB := [], flightBA := [], subA := [], subB := [] }

/-- C2 amended witness: the initial system state. -/
theorem c2_sent_keys_amended_witness :
    c2sys0.epA.base ≤ c2sys0.epA.nextseq ∧
    ((c2sys0.epA.sent 0).isSome = true ↔ 0 < c2sys0.epA.nextseq) := by
  have h := c2_sent_keys_amended c2sys0
    (SysReach.init 200 200 (1/8) (1/4) 4 1 (1/2) 1 (1/8) (1/4) 4 1 (1/2) 1
      true true 65535 65535)
  exact ⟨h.1.1, h.1.2 0⟩

/-- C2 counterexample: A (all defaults) accepts one payload — seq 0 — and B,
on receiving it, replies with the cumulative ACK 0 (first conjunct).  When A
processes that ACK its base advances to 1 = nextseq, yet sent still has the
key 0: an entry outside [base, nextseq) = [1, 1) = ∅, contradicting the
claim that the keys are exactly that interval. -/
theorem c2_stale_sent_key_counterexample :
    (on_receive defaultEndpoint 0 (mkData 0 [5])).out = some (mkAck 0) ∧
    (on_receive (send_data defaultEndpoint 0 [5]).st 1 (mkAck 0)).st.base = 1 ∧
    (on_receive (send_data defaultEndpoint 0 [5]).st 1 (mkAck 0)).st.nextseq = 1 ∧
    ((on_receive (send_data defaultEndpoint 0 [5]).st 1 (mkAck 0)).st.sent 0).isSome
      = true := by
  have hb : ((send_data defaultEndpoint 0 [5]).st.base : ℤ) ≤ (0 : ℤ) := by
    rw [send_data_accept defaultEndpoint 0 [5]
      (by norm_num [defaultEndpoint, initEndpoint])]
    norm_num [defaultEndpoint, initEndpoint]
  have hrw := on_receive_ack_new (send_data defaultEndpoint 0 [5]).st 1
    (mkAck 0) 0 rfl rfl hb
  have hf := newack_fields (send_data defaultEndpoint 0 [5]).st 1 0
  refine ⟨?_, ?_, ?_, ?_⟩
  · rw [on_receive_data_eq defaultEndpoint 0 (mkData 0 [5]) rfl,
        data_accept defaultEndpoint (mkData 0 [5])
          (by norm_num [defaultEndpoint, initEndpoint, mkData])]
    norm_num [defaultEndpoint, initEndpoint, mkAck]
  · rw [hrw, hf.1]
    norm_num
  · rw [hrw, hf.2.1,
        send_data_accept defaultEndpoint 0 [5]
          (by norm_num [defaultEndpoint, initEndpoint])]
    norm_num [defaultEndpoint, initEndpoint]
  · rw [hrw, hf.2.2.1,
        send_data_accept defaultEndpoint 0 [5]
          (by norm_num [defaultEndpoint, initEndpoint])]
    simp [upd, defaultEndpoint, initEndpoint]

/-! ### Claim C1: in-order delivery of submitted payloads -/

/-- C1 setup: endpoint configuration with congestion control off (the bug is
independent of the congestion settings; this keeps the trace in integer
arithmetic). -/
def c1e0 : TCPishEndpoint := initEndpoint 200 (1/8) (1/4) 4 false 65535 1 1 (1/2)

/-- The state of A after `send_data` accepted the single payload [0]
(proved equal to `(send_data c1e0 0 [0]).st` in the theorem below). -/
def c1startA : TCPishEndpoint :=
  { c1e0 with
    nextseq := 1, sent := upd (fun _ => none) 0 (mkData 0 [0]),
    sent_ts := upd (fun _ => none) 0 0, packets_sent := 1, timerArmed := true }

/-- First transmission of DATA 0 on a link with corruption probability 1:
stamped, then its payload byte bumped in place, then dropped at the
verify_checksum gate. -/
def c1wire1 : WireResult :=
  channel_send false true false 0 (initLink 0 0 0 0 1) (mkData 0 [0])

/-- Python aliasing: `sent[0]` and the packet the channel just mutated are
the same dict object, so after the first transmission A's retransmission
buffer holds the corrupted payload. -/
def c1aliased : TCPishEndpoint :=
  { c1startA with sent := upd c1startA.sent 0 c1wire1.obj }

/-- The retransmission timer fires and resends `sent[base]` — the mutated
object. -/
def c1fire : StepResult := timeout_fire c1aliased 1

/-- The retransmission goes through the channel cleanly: `add_checksum`
re-stamps the (corrupted) payload, so verification now succeeds. -/
def c1wire2 : WireResult := channel_send false false false 0 c1wire1.link c1wire1.obj

/-- B receives the delivered retransmission. -/
def c1deliverB : StepResult := on_receive c1e0 2 (add_checksum c1wire1.obj)

/-- C1 is violated by the code: A submits the single payload [0]; the channel
corrupts the first transmission in place (mutating the dict aliased into A's
sent buffer) and the checksum gate discards it; the timeout retransmits the
aliased — corrupted — packet, which is freshly re-stamped and passes
verification; B accepts seq 0 and hands the application payload [1], which
was never submitted.  The sequence of payloads returned by recv_app_data
([[1]]) is not a prefix of the submitted sequence ([[0]]). -/
theorem c1_corrupted_retransmission_reaches_app :
    c1startA = (send_data c1e0 0 [0]).st ∧
    c1wire1.obj.payload = some [1] ∧
    c1wire1.obj.corrupted = true ∧
    c1wire1.delivered = none ∧
    c1fire.out = some c1wire1.obj ∧
    c1wire2.delivered = some (add_checksum c1wire1.obj) ∧
    (recv_app_data c1deliverB.st).2 = some [1] ∧
    ([1] : List ℕ) ≠ [0] := by
  refine ⟨?_, by decide, by decide, by decide, by decide, by decide, by decide,
    by decide⟩
  rw [send_data_accept c1e0 0 [0] (by norm_num [c1e0, initEndpoint])]
  simp [c1startA, c1e0, initEndpoint]
